import Mathlib

/-!
Shallow embedding of the incremental negative-cycle detection engine
(`arbitragegraph.cpp`): the `ArbitrageGraph` class with its constructor,
`update_price`, `find_arbitrage_cycle` and `reconstruct_cycle`.

Conventions of the embedding:
* C++ `double` is modelled as `ℝ`; `+∞` distances are `Option ℝ` with
  `none` standing for infinity.
* The `predecessor` array stores `ℤ` values with `-1` as the "no
  predecessor" sentinel, exactly as the source does.
* `std::vector::at` is modelled by `vecAt` / `vecZAt`, which return an
  `Except` error on an out-of-range index (the thrown exception).
* `std::unordered_map` is modelled by an association list with
  first-match lookup; insertion of an absent key is a cons.
* The SPFA `while` loop and the reconstruction `do-while` loop run on
  explicit fuel; `find_arbitrage_cycle` passes a fuel bound that is
  proved sufficient below (`spfaLoop_measure_isSome`).
-/

namespace ArbEngine

/-- First-match lookup in an association list (models `unordered_map::find`). -/
def alookup {α β : Type} [DecidableEq α] : List (α × β) → α → Option β
  | [], _ => none
  | (k, v) :: rest, key => if key = k then some v else alookup rest key

/-- Splitting a symbol string at the first `'-'`:
`symbol.find('-')` followed by the two `substr` calls.
Returns `none` when the delimiter is absent. -/
def splitSymbol (s : String) : Option (String × String) :=
  match s.data.findIdx? (fun c => c = '-') with
  | none => none
  | some delimiter_pos =>
      some (⟨s.data.take delimiter_pos⟩, ⟨s.data.drop (delimiter_pos + 1)⟩)

/-- Lexicographic comparison of character lists by code point: the
order `std::string::operator<` induces on these names. -/
def charsLt : List Char → List Char → Bool
  | [], [] => false
  | [], _ :: _ => true
  | _ :: _, [] => false
  | c :: cs, d :: ds =>
      if c.toNat < d.toNat then true
      else if d.toNat < c.toNat then false
      else charsLt cs ds

/-- String comparison used by the `std::set` of currency names. -/
def strLt (a b : String) : Bool := charsLt a.data b.data

/-- Ordered insertion without duplicates: one `std::set<std::string>::insert`. -/
def setInsert (x : String) : List String → List String
  | [] => [x]
  | y :: ys =>
      if x = y then y :: ys
      else if strLt x y then x :: y :: ys
      else y :: setInsert x ys

/-- The constructor's first loop: fill the `std::set` of currency names
from all well-formed symbols.  The result is the ascending list of
distinct currency names, i.e. the set's iteration order. -/
def collectCurrencies (symbols : List String) : List String :=
  symbols.foldl
    (fun acc s =>
      match splitSymbol s with
      | none => acc
      | some (base, quote) => setInsert quote (setInsert base acc))
    []

/-- A directed edge record: `struct Edge { int destination_id; double weight; }`. -/
structure Edge where
  destination_id : ℕ
  weight : ℝ

/-- The engine state: all data members of class `ArbitrageGraph`. -/
structure ArbitrageGraph where
  adjacency_list : List (List Edge)
  currency_to_id : List (String × ℕ)
  id_to_currency : List String
  edge_index_map : List (ℕ × ℕ)
  num_vertices : ℕ
  distance : List (Option ℝ)
  predecessor : List ℤ
  update_counts : List ℕ
  dirty_vertices : List ℕ

/-- `create_edge_key`: `(uint64_t(source_id) << 32) | dest_id`, on 64 bits. -/
def create_edge_key (source_id dest_id : ℕ) : ℕ :=
  ((source_id <<< 32) ||| dest_id) % 2 ^ 64

/-- The `ArbitrageGraph` constructor.  Note that the source executes
`distance[0] = 0.0` unconditionally after resizing the vector to
`num_vertices`; for `num_vertices = 0` that write is out of bounds
(see `distanceWriteInBounds`), and this embedding charitably treats it
as a no-op (`List.set` out of range). -/
def mkArbitrageGraph (symbols : List String) : ArbitrageGraph :=
  let currencies := collectCurrencies symbols
  let n := currencies.length
  { adjacency_list := List.replicate n []
    currency_to_id := currencies.enum.map (fun p => (p.2, p.1))
    id_to_currency := currencies
    edge_index_map := []
    num_vertices := n
    distance := (List.replicate n (none : Option ℝ)).set 0 (some 0)
    predecessor := List.replicate n (-1 : ℤ)
    update_counts := List.replicate n 0
    dirty_vertices := [] }

/-- In-bounds condition for the constructor's unconditional
`distance[0] = 0.0` write: the distance vector must be non-empty. -/
def distanceWriteInBounds (symbols : List String) : Prop :=
  0 < (mkArbitrageGraph symbols).num_vertices

/-- Outcome of one `update_price` call:
* `ok` — normal return;
* `unknownCurrency` — the `cerr` diagnostic followed by an early `return`;
* `malformedSymbol` — the thrown `std::runtime_error`. -/
inductive UpdateResult where
  | ok : UpdateResult
  | unknownCurrency : UpdateResult
  | malformedSymbol : UpdateResult
deriving DecidableEq

/-- One edge-map upsert: the forward-edge (resp. reverse-edge) block of
`update_price`.  If the key is absent, push the new edge and record its
index; otherwise overwrite the weight in place. -/
def upsertEdge (g : ArbitrageGraph) (src dst : ℕ) (w : ℝ) : ArbitrageGraph :=
  let key := create_edge_key src dst
  match alookup g.edge_index_map key with
  | none =>
      let row := (g.adjacency_list.getD src []) ++ [⟨dst, w⟩]
      { g with
          adjacency_list := g.adjacency_list.set src row
          edge_index_map := (key, row.length - 1) :: g.edge_index_map }
  | some idx =>
      let row := (g.adjacency_list.getD src []).modify
          (fun e => { e with weight := w }) idx
      { g with adjacency_list := g.adjacency_list.set src row }

/-- `update_price(symbol, price)`.  Computes `weight = -log(price)` and
`reverse_weight = -log(1.0 / price)`, writes the forward and reverse
edges (in that order), then appends both endpoint ids to the dirty
queue.  Mirrors the source's control flow; note there is no validation
of `price` anywhere. -/
noncomputable def update_price (g : ArbitrageGraph) (symbol : String) (price : ℝ) :
    UpdateResult × ArbitrageGraph :=
  match splitSymbol symbol with
  | none => (.malformedSymbol, g)
  | some (base_currency, quote_currency) =>
      match alookup g.currency_to_id base_currency,
            alookup g.currency_to_id quote_currency with
      | some base_id, some quote_id =>
          let weight := -Real.log price
          let reverse_weight := -Real.log (1 / price)
          let g := upsertEdge g base_id quote_id weight
          let g := upsertEdge g quote_id base_id reverse_weight
          (.ok, { g with
                    dirty_vertices := g.dirty_vertices ++ [base_id, quote_id] })
      | _, _ => (.unknownCurrency, g)

/-- The state mutation of one successful relaxation of edge `u → v`:
`distance[v] := nd; predecessor[v] := u; dirty.push_back(v);
update_counts[v]++`. -/
def applyRelax (g : ArbitrageGraph) (u v : ℕ) (nd : ℝ) : ArbitrageGraph :=
  { g with
      distance := g.distance.set v (some nd)
      predecessor := g.predecessor.set v (u : ℤ)
      dirty_vertices := g.dirty_vertices ++ [v]
      update_counts := g.update_counts.set v (g.update_counts.getD v 0 + 1) }

/-- The inner `for (const auto& edge : adjacency_list[u])` loop of
`find_arbitrage_cycle`.  Returns `.inl` with the updated state when the
loop runs to completion, `.inr (v, state)` when `update_counts[v]`
reaches `num_vertices` (negative-cycle detection). -/
noncomputable def relaxLoop (u : ℕ) :
    List Edge → ArbitrageGraph → ArbitrageGraph ⊕ (ℕ × ArbitrageGraph)
  | [], g => .inl g
  | edge :: rest, g =>
      match g.distance.getD u none with
      | none => relaxLoop u rest g
      | some du =>
          let v := edge.destination_id
          let relaxed : ArbitrageGraph ⊕ (ℕ × ArbitrageGraph) :=
            let g' := applyRelax g u v (du + edge.weight)
            if g.update_counts.getD v 0 + 1 ≥ g.num_vertices then .inr (v, g')
            else .inl g'
          match g.distance.getD v none with
          | none =>
              match relaxed with
              | .inl g' => relaxLoop u rest g'
              | .inr d => .inr d
          | some dv =>
              if du + edge.weight < dv then
                match relaxed with
                | .inl g' => relaxLoop u rest g'
                | .inr d => .inr d
              else relaxLoop u rest g

/-- `std::vector::at` with a signed index: ok in bounds, exception otherwise. -/
def vecAt {α : Type} (l : List α) (i : ℤ) : Except String α :=
  match l[i.toNat]? with
  | some x => if 0 ≤ i then .ok x else .error "std::out_of_range"
  | none => .error "std::out_of_range"

/-- The first reconstruction loop: `num_vertices` iterations of
`current = predecessor.at(current)`. -/
def predWalk (pred : List ℤ) : ℕ → ℤ → Except String ℤ
  | 0, current => .ok current
  | n + 1, current =>
      match vecAt pred current with
      | .error e => .error e
      | .ok next => predWalk pred n next

/-- The reconstruction `do { path.insert(begin, current);
current = predecessor.at(current); } while (current != cycle_start)`
loop, on fuel.  Fuel exhaustion (which would be a non-terminating C++
loop) is reported as an error; with the fuel passed by
`reconstruct_cycle` it is never reached in the runs analysed here. -/
def collectCycle (pred : List ℤ) (cycle_start : ℤ) :
    ℕ → ℤ → List ℤ → Except String (List ℤ)
  | 0, _, _ => .error "non-terminating reconstruction loop"
  | n + 1, current, path =>
      let path := current :: path
      match vecAt pred current with
      | .error e => .error e
      | .ok next =>
          if next = cycle_start then .ok path
          else collectCycle pred cycle_start n next path

/-- The final loop of `reconstruct_cycle`: map vertex ids to currency
names through `id_to_currency.at`. -/
def mapNames (names : List String) : List ℤ → Except String (List String)
  | [] => .ok []
  | i :: rest =>
      match vecAt names i with
      | .error e => .error e
      | .ok n =>
          match mapNames names rest with
          | .error e => .error e
          | .ok ns => .ok (n :: ns)

/-- `reconstruct_cycle(start_node)`: walk the predecessor chain
`num_vertices` times, then collect the cycle back to the entry point,
prepend it once more, and map ids to currency names. -/
def reconstruct_cycle (g : ArbitrageGraph) (start_node : ℕ) :
    Except String (List String) :=
  match predWalk g.predecessor g.num_vertices (start_node : ℤ) with
  | .error e => .error e
  | .ok cycle_start =>
      match collectCycle g.predecessor cycle_start (g.num_vertices + 1)
          cycle_start [] with
      | .error e => .error e
      | .ok path => mapNames g.id_to_currency (cycle_start :: path)

/-- The outer `while (!dirty_vertices.empty())` loop of
`find_arbitrage_cycle`, on fuel (`none` = fuel exhausted). -/
noncomputable def spfaLoop :
    ℕ → ArbitrageGraph →
    Option (Except String (Option (List String)) × ArbitrageGraph)
  | 0, _ => none
  | fuel + 1, g =>
      match g.dirty_vertices with
      | [] => some (.ok none, g)
      | u :: rest =>
          match relaxLoop u (g.adjacency_list.getD u [])
              { g with dirty_vertices := rest } with
          | .inl g' => spfaLoop fuel g'
          | .inr (v, g') => some ((reconstruct_cycle g' v).map some, g')

/-- Fuel bound used by `find_arbitrage_cycle`; proved sufficient below. -/
def fuelBound (g : ArbitrageGraph) : ℕ :=
  g.dirty_vertices.length + g.num_vertices * g.num_vertices + 1

/-- `find_arbitrage_cycle()`: drain the dirty queue, relaxing outgoing
edges; on detection return the reconstructed cycle (`.ok (some c)`),
on a drained queue return no cycle (`.ok none`); `.error` models a
C++ exception propagating out of the call.  The returned state is the
engine state after the call. -/
noncomputable def find_arbitrage_cycle (g : ArbitrageGraph) :
    Except String (Option (List String)) × ArbitrageGraph :=
  (spfaLoop (fuelBound g) g).getD (.error "fuel exhausted", g)

/-- The weight stored in the graph for the directed edge `u → v`
(the first matching entry of `adjacency_list[u]`). -/
def edgeWeight (g : ArbitrageGraph) (u v : ℕ) : Option ℝ :=
  ((g.adjacency_list.getD u []).find? (fun e => e.destination_id = v)).map
    (fun e => e.weight)

/-- Edge presence, as a Boolean. -/
def hasEdgeB (g : ArbitrageGraph) (u v : ℕ) : Bool :=
  ((g.adjacency_list.getD u []).find? (fun e => e.destination_id = v)).isSome

/-- The consecutive ordered pairs of a closed vertex sequence
`[c₀, …, cₖ₋₁]` read as the cycle `c₀ → c₁ → ⋯ → cₖ₋₁ → c₀`. -/
def cycleEdges (c : List ℕ) : List (ℕ × ℕ) :=
  c.zip (c.rotate 1)

/-- A (simple) cycle of the stored graph: non-empty, no duplicate
vertices, and every consecutive edge present. -/
def IsCycleB (g : ArbitrageGraph) (c : List ℕ) : Bool :=
  !c.isEmpty && c.Nodup && (cycleEdges c).all (fun p => hasEdgeB g p.1 p.2)

/-- Sum of the stored weights along a cycle (absent edges count 0;
`IsCycleB` guarantees they are all present). -/
def cycleWeight (g : ArbitrageGraph) (c : List ℕ) : ℝ :=
  ((cycleEdges c).map (fun p => (edgeWeight g p.1 p.2).getD 0)).sum

/-- Reachability from vertex `0` along stored edges. -/
inductive ReachableFrom0 (g : ArbitrageGraph) : ℕ → Prop
  | base : ReachableFrom0 g 0
  | step {u v : ℕ} : ReachableFrom0 g u → hasEdgeB g u v = true →
      ReachableFrom0 g v

/-- The current edge weights admit a negative-weight cycle reachable
from vertex `0`. -/
def HasNegCycleFrom0 (g : ArbitrageGraph) : Prop :=
  ∃ c : List ℕ, IsCycleB g c = true ∧ (∃ x ∈ c, ReachableFrom0 g x) ∧
    cycleWeight g c < 0

/-- Vertex id of a currency name. -/
def nameId (g : ArbitrageGraph) (s : String) : Option ℕ :=
  alookup g.currency_to_id s

/-- Stored weight of the edge between two named currencies. -/
def nameEdgeWeight (g : ArbitrageGraph) (a b : String) : Option ℝ :=
  match nameId g a, nameId g b with
  | some u, some v => edgeWeight g u v
  | _, _ => none

/-- Sum of the stored weights along a returned currency sequence
`[c₀, c₁, …, cₖ]` (over the edges `cᵢ → cᵢ₊₁`); `none` if any edge or
name is missing. -/
def namesCycleWeight (g : ArbitrageGraph) (c : List String) : Option ℝ :=
  (c.zip c.tail).foldl
    (fun acc p =>
      match acc, nameEdgeWeight g p.1 p.2 with
      | some s, some w => some (s + w)
      | _, _ => none)
    (some 0)

/-! ### Well-formedness of an engine state

These are the structural invariants the C++ object maintains between
calls: vector sizes match `num_vertices`, edge destinations and
currency ids are in range, the edge index map points at the edge with
the recorded destination, every stored edge is indexed, and the vertex
count fits the 32-bit packing of `create_edge_key`.  All clauses are
Boolean so that a concrete state can be checked by evaluation. -/

/-- All per-vertex vectors have length `num_vertices`. -/
def wfSizes (g : ArbitrageGraph) : Bool :=
  decide (g.adjacency_list.length = g.num_vertices) &&
  decide (g.distance.length = g.num_vertices) &&
  decide (g.predecessor.length = g.num_vertices) &&
  decide (g.update_counts.length = g.num_vertices) &&
  decide (g.id_to_currency.length = g.num_vertices)

/-- Every stored edge targets a vertex in `[0, num_vertices)`. -/
def wfEdges (g : ArbitrageGraph) : Bool :=
  g.adjacency_list.all fun row =>
    row.all fun e => decide (e.destination_id < g.num_vertices)

/-- For every in-range pair, a mapped index points inside the source's
row at an edge with the right destination. -/
def wfMapCorrect (g : ArbitrageGraph) : Bool :=
  (List.range g.num_vertices).all fun a =>
    (List.range g.num_vertices).all fun b =>
      match alookup g.edge_index_map (create_edge_key a b) with
      | none => true
      | some i =>
          match (g.adjacency_list.getD a [])[i]? with
          | none => false
          | some e => decide (e.destination_id = b)

/-- Every stored edge is indexed by the map at its own position. -/
def wfMapComplete (g : ArbitrageGraph) : Bool :=
  (List.range g.num_vertices).all fun u =>
    ((g.adjacency_list.getD u []).enum.all fun p =>
      decide (alookup g.edge_index_map
        (create_edge_key u p.2.destination_id) = some p.1))

/-- Registered currency ids are in `[0, num_vertices)`. -/
def wfCurrencyIds (g : ArbitrageGraph) : Bool :=
  g.currency_to_id.all fun p => decide (p.2 < g.num_vertices)

/-- Queued vertices are in `[0, num_vertices)`. -/
def wfQueue (g : ArbitrageGraph) : Bool :=
  g.dirty_vertices.all fun v => decide (v < g.num_vertices)

/-- `num_vertices` fits the 32-bit half of the packed edge key. -/
def wfSmall (g : ArbitrageGraph) : Bool :=
  decide (g.num_vertices ≤ 2 ^ 32)

/-- Full structural well-formedness of an engine state. -/
def WFb (g : ArbitrageGraph) : Bool :=
  wfSizes g && wfEdges g && wfMapCorrect g && wfMapComplete g &&
  wfCurrencyIds g && wfQueue g && wfSmall g

/-! ### Concrete script states

Two scripts drive the counterexample analysis.  All prices are of the
form `Real.exp k`, so every stored weight is the integer `-k` (forward)
or `k` (reverse) and the SPFA comparisons are exact.

Script `S1` (two currencies): one benign update, a clean query, a
second update that leaves weights `{A→B = -3, B→A = 3}` (no negative
cycle), then a query again.

Script `S2` (three currencies): build a genuine arbitrage, detect it,
re-price `A-C` so that no negative cycle remains, query (no cycle),
then re-price `A-B`; the next query fires on stale update counts. -/

/-- Engine states over the two-currency registry of `["A-B"]`. -/
def st2 (adj : List (List Edge)) (emap : List (ℕ × ℕ))
    (dist : List (Option ℝ)) (pred : List ℤ) (counts : List ℕ)
    (dirty : List ℕ) : ArbitrageGraph :=
  { adjacency_list := adj
    currency_to_id := [("A", 0), ("B", 1)]
    id_to_currency := ["A", "B"]
    edge_index_map := emap
    num_vertices := 2
    distance := dist
    predecessor := pred
    update_counts := counts
    dirty_vertices := dirty }

/-- Engine states over the three-currency registry of
`["A-B", "B-C", "A-C"]`. -/
def st3 (adj : List (List Edge)) (emap : List (ℕ × ℕ))
    (dist : List (Option ℝ)) (pred : List ℤ) (counts : List ℕ)
    (dirty : List ℕ) : ArbitrageGraph :=
  { adjacency_list := adj
    currency_to_id := [("A", 0), ("B", 1), ("C", 2)]
    id_to_currency := ["A", "B", "C"]
    edge_index_map := emap
    num_vertices := 3
    distance := dist
    predecessor := pred
    update_counts := counts
    dirty_vertices := dirty }

/-- Script S1, step 0: construction from `["A-B"]`. -/
noncomputable def S1g0 : ArbitrageGraph := mkArbitrageGraph ["A-B"]

/-- Script S1, step 1: `update_price("A-B", e)`. -/
noncomputable def S1g1 : ArbitrageGraph := (update_price S1g0 "A-B" (Real.exp 1)).2

/-- Script S1, step 2: first `find_arbitrage_cycle` call (returns no cycle). -/
noncomputable def S1g2 : ArbitrageGraph := (find_arbitrage_cycle S1g1).2

/-- Script S1, step 3: `update_price("A-B", e³)`; the stored weights are
now `A→B = -3`, `B→A = 3`, which admit no negative cycle. -/
noncomputable def S1g3 : ArbitrageGraph := (update_price S1g2 "A-B" (Real.exp 3)).2

/-- Script S2, step 0: construction from `["A-B", "B-C", "A-C"]`. -/
noncomputable def S2g0 : ArbitrageGraph := mkArbitrageGraph ["A-B", "B-C", "A-C"]

/-- Script S2, step 1: `update_price("A-B", e)`. -/
noncomputable def S2g1 : ArbitrageGraph := (update_price S2g0 "A-B" (Real.exp 1)).2

/-- Script S2, step 2: `update_price("B-C", e)`. -/
noncomputable def S2g2 : ArbitrageGraph := (update_price S2g1 "B-C" (Real.exp 1)).2

/-- Script S2, step 3: `update_price("A-C", e³)`; the weights now admit
the genuine negative cycle `A→C→B→A`. -/
noncomputable def S2g3 : ArbitrageGraph := (update_price S2g2 "A-C" (Real.exp 3)).2

/-- Script S2, step 4: first `find_arbitrage_cycle` call (detects the
genuine cycle `[B, A, C, B]`). -/
noncomputable def S2g4 : ArbitrageGraph := (find_arbitrage_cycle S2g3).2

/-- Script S2, step 5: `update_price("A-C", e²)`; every cycle now sums
to exactly `0`. -/
noncomputable def S2g5 : ArbitrageGraph := (update_price S2g4 "A-C" (Real.exp 2)).2

/-- Script S2, step 6: second `find_arbitrage_cycle` call (no cycle). -/
noncomputable def S2g6 : ArbitrageGraph := (find_arbitrage_cycle S2g5).2

/-- Script S2, step 7: `update_price("A-B", e²)`; every cycle still sums
to `0`, but vertex `B`'s update count is already at the threshold. -/
noncomputable def S2g7 : ArbitrageGraph := (update_price S2g6 "A-B" (Real.exp 2)).2

/-! ### Termination measure for the SPFA loop -/

/-- Remaining "update budget" of a state: vertex `v` can be relaxed at
most `num_vertices - 1` more times before its update count reaches the
detection threshold.  Summed over all vertices. -/
def Pm (g : ArbitrageGraph) : ℕ :=
  (g.update_counts.map (fun c => g.num_vertices - 1 - c)).sum

/-- Loop measure: pending dirty-queue entries plus the remaining update
budget.  Every continuing iteration of the outer SPFA loop strictly
decreases it. -/
def mu (g : ArbitrageGraph) : ℕ := g.dirty_vertices.length + Pm g

/-- The structural hypothesis under which the SPFA loop is proved to
terminate: every stored edge destination indexes into `update_counts`
(the constructor establishes this and `update_price` preserves it for
registered currencies). -/
def TermHyp (g : ArbitrageGraph) : Bool :=
  g.adjacency_list.all fun row => row.all fun e =>
    decide (e.destination_id < g.update_counts.length)

/-! ### Arithmetic of the packed edge key -/

/-- Packing a 32-bit-bounded low half next to a shifted high half is
plain positional arithmetic. -/
theorem lor_high_low (a b : ℕ) (hb : b < 2 ^ 32) :
    a <<< 32 ||| b = a * 2 ^ 32 + b := by
  apply Nat.eq_of_testBit_eq
  intro i
  rw [Nat.testBit_lor, Nat.testBit_shiftLeft]
  rcases lt_or_ge i 32 with h | h
  · have hd : decide (32 ≤ i) = false := by
      simp only [decide_eq_false_iff_not]
      omega
    rw [hd, Bool.false_and, Bool.false_or,
      Nat.testBit_to_div_mod, Nat.testBit_to_div_mod]
    have e1 : a * 2 ^ 32 + b = b + a * 2 ^ (32 - i) * 2 ^ i := by
      rw [Nat.add_comm]
      congr 1
      rw [Nat.mul_assoc, ← pow_add]
      congr 2
      omega
    have e2 : (a * 2 ^ 32 + b) / 2 ^ i = b / 2 ^ i + a * 2 ^ (32 - i) := by
      rw [e1, Nat.add_mul_div_right _ _ (Nat.two_pow_pos i)]
    have e3 : a * 2 ^ (32 - i) = 2 * (a * 2 ^ (31 - i)) := by
      rw [show (32 - i) = (31 - i) + 1 by omega, pow_succ]
      ring
    rw [e2, e3]
    simp only [decide_eq_decide]
    omega
  · have hd : decide (32 ≤ i) = true := by
      simp only [decide_eq_true_eq]
      omega
    have hbf : b.testBit i = false :=
      Nat.testBit_lt_two_pow
        (lt_of_lt_of_le hb (Nat.pow_le_pow_right (by norm_num) h))
    rw [hd, Bool.true_and, hbf, Bool.or_false,
      Nat.testBit_to_div_mod, Nat.testBit_to_div_mod]
    have e2 : (a * 2 ^ 32 + b) / 2 ^ i = a / 2 ^ (i - 32) := by
      rw [show (2 : ℕ) ^ i = 2 ^ 32 * 2 ^ (i - 32) by
        rw [← pow_add]
        congr 1
        omega]
      rw [← Nat.div_div_eq_div_mul]
      congr 1
      rw [Nat.add_comm, Nat.mul_comm,
        Nat.add_mul_div_left _ _ (Nat.two_pow_pos 32),
        Nat.div_eq_of_lt hb, Nat.zero_add]
    rw [e2]

/-- `create_edge_key` is injective on vertex ids below `2^32`. -/
theorem create_edge_key_inj {a b c d : ℕ} (ha : a < 2 ^ 32)
    (hb : b < 2 ^ 32) (hc : c < 2 ^ 32) (hd : d < 2 ^ 32)
    (h : create_edge_key a b = create_edge_key c d) : a = c ∧ b = d := by
  have h1 : (a <<< 32) ||| b < 2 ^ 64 := by
    have := Nat.append_lt hb ha
    simpa using this
  have h2 : (c <<< 32) ||| d < 2 ^ 64 := by
    have := Nat.append_lt hd hc
    simpa using this
  rw [create_edge_key, create_edge_key, Nat.mod_eq_of_lt h1,
    Nat.mod_eq_of_lt h2, lor_high_low a b hb, lor_high_low c d hd] at h
  constructor <;> omega

/-! ### Association list lemmas -/

theorem alookup_mem {α β : Type} [DecidableEq α] {l : List (α × β)}
    {k : α} {v : β} (h : alookup l k = some v) : (k, v) ∈ l := by
  induction l with
  | nil => simp [alookup] at h
  | cons p rest ih =>
      rw [alookup] at h
      by_cases hk : k = p.1
      · rcases p with ⟨k', v'⟩
        simp only [hk, if_pos rfl] at h
        cases h
        simp [hk]
      · rcases p with ⟨k', v'⟩
        simp only [if_neg hk] at h
        exact List.mem_cons_of_mem _ (ih h)

theorem alookup_cons_ne {α β : Type} [DecidableEq α] {l : List (α × β)}
    {k k' : α} {v' : β} (h : k ≠ k') :
    alookup ((k', v') :: l) k = alookup l k := by
  simp [alookup, h]

/-- Literal computation helpers for `Int.toNat` on the values the
reconstruction walks encounter. -/
theorem toNat_lit_two : (2 : ℤ).toNat = 2 := rfl

theorem toNat_lit_neg_one : (-1 : ℤ).toNat = 0 := rfl

/-! ### Evaluation of script S1 -/

theorem S1g1_eq : S1g1 =
    st2 [[⟨1, -1⟩], [⟨0, 1⟩]] [(2 ^ 32, 0), (1, 0)]
      [some 0, none] [-1, -1] [0, 0] [0, 1] := by
  have key : update_price S1g0 "A-B" (Real.exp 1) =
      (.ok, st2 [[⟨1, -Real.log (Real.exp 1)⟩], [⟨0, -Real.log (1 / Real.exp 1)⟩]]
        [(2 ^ 32, 0), (1, 0)] [some 0, none] [-1, -1] [0, 0] [0, 1]) := rfl
  show (update_price S1g0 "A-B" (Real.exp 1)).2 = _
  rw [key]
  norm_num [st2, ArbitrageGraph.mk.injEq, Edge.mk.injEq, Real.log_exp,
    Real.log_inv]

theorem S1f1_step1 (n : ℕ) :
    spfaLoop (n + 1)
      (st2 [[⟨1, -1⟩], [⟨0, 1⟩]] [(2 ^ 32, 0), (1, 0)]
        [some 0, none] [-1, -1] [0, 0] [0, 1]) =
    spfaLoop n
      (st2 [[⟨1, -1⟩], [⟨0, 1⟩]] [(2 ^ 32, 0), (1, 0)]
        [some 0, some (-1)] [-1, 0] [0, 1] [1, 1]) := by
  simp only [spfaLoop, st2, relaxLoop, applyRelax, List.getD]
  norm_num

theorem S1f1_step2 (n : ℕ) :
    spfaLoop (n + 1)
      (st2 [[⟨1, -1⟩], [⟨0, 1⟩]] [(2 ^ 32, 0), (1, 0)]
        [some 0, some (-1)] [-1, 0] [0, 1] [1, 1]) =
    spfaLoop n
      (st2 [[⟨1, -1⟩], [⟨0, 1⟩]] [(2 ^ 32, 0), (1, 0)]
        [some 0, some (-1)] [-1, 0] [0, 1] [1]) := by
  simp only [spfaLoop, st2, relaxLoop, applyRelax, List.getD]
  norm_num

theorem S1f1_step3 (n : ℕ) :
    spfaLoop (n + 1)
      (st2 [[⟨1, -1⟩], [⟨0, 1⟩]] [(2 ^ 32, 0), (1, 0)]
        [some 0, some (-1)] [-1, 0] [0, 1] [1]) =
    spfaLoop n
      (st2 [[⟨1, -1⟩], [⟨0, 1⟩]] [(2 ^ 32, 0), (1, 0)]
        [some 0, some (-1)] [-1, 0] [0, 1] []) := by
  simp only [spfaLoop, st2, relaxLoop, applyRelax, List.getD]
  norm_num

theorem S1f1_last (n : ℕ) :
    spfaLoop (n + 1)
      (st2 [[⟨1, -1⟩], [⟨0, 1⟩]] [(2 ^ 32, 0), (1, 0)]
        [some 0, some (-1)] [-1, 0] [0, 1] []) =
    some (.ok none,
      st2 [[⟨1, -1⟩], [⟨0, 1⟩]] [(2 ^ 32, 0), (1, 0)]
        [some 0, some (-1)] [-1, 0] [0, 1] []) := by
  simp only [spfaLoop, st2]

theorem S1f1_eq : find_arbitrage_cycle S1g1 =
    (.ok none,
     st2 [[⟨1, -1⟩], [⟨0, 1⟩]] [(2 ^ 32, 0), (1, 0)]
       [some 0, some (-1)] [-1, 0] [0, 1] []) := by
  rw [S1g1_eq]
  simp only [find_arbitrage_cycle]
  rw [show fuelBound
      (st2 [[⟨1, -1⟩], [⟨0, 1⟩]] [(2 ^ 32, 0), (1, 0)]
        [some 0, none] [-1, -1] [0, 0] [0, 1]) = 6 + 1 from rfl]
  rw [S1f1_step1 6, S1f1_step2 5, S1f1_step3 4, S1f1_last 3]
  rfl

theorem S1g2_eq : S1g2 =
    st2 [[⟨1, -1⟩], [⟨0, 1⟩]] [(2 ^ 32, 0), (1, 0)]
      [some 0, some (-1)] [-1, 0] [0, 1] [] := by
  show (find_arbitrage_cycle S1g1).2 = _
  rw [S1f1_eq]

theorem S1g3_eq : S1g3 =
    st2 [[⟨1, -3⟩], [⟨0, 3⟩]] [(2 ^ 32, 0), (1, 0)]
      [some 0, some (-1)] [-1, 0] [0, 1] [0, 1] := by
  have key : update_price
      (st2 [[⟨1, -1⟩], [⟨0, 1⟩]] [(2 ^ 32, 0), (1, 0)]
        [some 0, some (-1)] [-1, 0] [0, 1] []) "A-B" (Real.exp 3) =
      (.ok, st2 [[⟨1, -Real.log (Real.exp 3)⟩], [⟨0, -Real.log (1 / Real.exp 3)⟩]]
        [(2 ^ 32, 0), (1, 0)] [some 0, some (-1)] [-1, 0] [0, 1] [0, 1]) := rfl
  show (update_price S1g2 "A-B" (Real.exp 3)).2 = _
  rw [S1g2_eq, key]
  norm_num [st2, ArbitrageGraph.mk.injEq, Edge.mk.injEq, Real.log_exp,
    Real.log_inv]

theorem S1f2_step (n : ℕ) :
    spfaLoop (n + 1)
      (st2 [[⟨1, -3⟩], [⟨0, 3⟩]] [(2 ^ 32, 0), (1, 0)]
        [some 0, some (-1)] [-1, 0] [0, 1] [0, 1]) =
    some (.error "std::out_of_range",
      st2 [[⟨1, -3⟩], [⟨0, 3⟩]] [(2 ^ 32, 0), (1, 0)]
        [some 0, some (-3)] [-1, 0] [0, 2] [1, 1]) := by
  simp only [spfaLoop, st2, relaxLoop, applyRelax, List.getD]
  norm_num [reconstruct_cycle, predWalk, collectCycle, vecAt, Except.map,
    mapNames, toNat_lit_two, toNat_lit_neg_one]

theorem S1f2_eq : find_arbitrage_cycle S1g3 =
    (.error "std::out_of_range",
     st2 [[⟨1, -3⟩], [⟨0, 3⟩]] [(2 ^ 32, 0), (1, 0)]
       [some 0, some (-3)] [-1, 0] [0, 2] [1, 1]) := by
  rw [S1g3_eq]
  simp only [find_arbitrage_cycle]
  rw [show fuelBound
      (st2 [[⟨1, -3⟩], [⟨0, 3⟩]] [(2 ^ 32, 0), (1, 0)]
        [some 0, some (-1)] [-1, 0] [0, 1] [0, 1]) = 6 + 1 from rfl]
  rw [S1f2_step 6]
  rfl

/-! ### Evaluation of script S2 -/

theorem S2g1_eq : S2g1 =
    st3 [[⟨1, -1⟩], [⟨0, 1⟩], []]
      [(2 ^ 32, 0), (1, 0)]
      [some 0, none, none] [-1, -1, -1] [0, 0, 0] [0, 1] := by
  have key : update_price S2g0 "A-B" (Real.exp 1) =
      (.ok, st3 [[⟨1, -Real.log (Real.exp 1)⟩], [⟨0, -Real.log (1 / Real.exp 1)⟩], []]
        [(2 ^ 32, 0), (1, 0)]
        [some 0, none, none] [-1, -1, -1] [0, 0, 0] [0, 1]) := rfl
  show (update_price S2g0 "A-B" (Real.exp 1)).2 = _
  rw [key]
  norm_num [st3, ArbitrageGraph.mk.injEq, Edge.mk.injEq, Real.log_exp,
    Real.log_inv]

theorem S2g2_eq : S2g2 =
    st3 [[⟨1, -1⟩], [⟨0, 1⟩, ⟨2, -1⟩], [⟨1, 1⟩]]
      [(2 * 2 ^ 32 + 1, 0), (2 ^ 32 + 2, 1), (2 ^ 32, 0), (1, 0)]
      [some 0, none, none] [-1, -1, -1] [0, 0, 0] [0, 1, 1, 2] := by
  have key : update_price
      (st3 [[⟨1, -1⟩], [⟨0, 1⟩], []]
        [(2 ^ 32, 0), (1, 0)]
        [some 0, none, none] [-1, -1, -1] [0, 0, 0] [0, 1]) "B-C" (Real.exp 1) =
      (.ok, st3 [[⟨1, -1⟩], [⟨0, 1⟩, ⟨2, -Real.log (Real.exp 1)⟩], [⟨1, -Real.log (1 / Real.exp 1)⟩]]
        [(2 * 2 ^ 32 + 1, 0), (2 ^ 32 + 2, 1), (2 ^ 32, 0), (1, 0)]
        [some 0, none, none] [-1, -1, -1] [0, 0, 0] [0, 1, 1, 2]) := rfl
  show (update_price S2g1 "B-C" (Real.exp 1)).2 = _
  rw [S2g1_eq, key]
  norm_num [st3, ArbitrageGraph.mk.injEq, Edge.mk.injEq, Real.log_exp,
    Real.log_inv]

theorem S2g3_eq : S2g3 =
    st3 [[⟨1, -1⟩, ⟨2, -3⟩], [⟨0, 1⟩, ⟨2, -1⟩], [⟨1, 1⟩, ⟨0, 3⟩]]
      [(2 * 2 ^ 32, 1), (2, 1), (2 * 2 ^ 32 + 1, 0), (2 ^ 32 + 2, 1), (2 ^ 32, 0), (1, 0)]
      [some 0, none, none] [-1, -1, -1] [0, 0, 0] [0, 1, 1, 2, 0, 2] := by
  have key : update_price
      (st3 [[⟨1, -1⟩], [⟨0, 1⟩, ⟨2, -1⟩], [⟨1, 1⟩]]
        [(2 * 2 ^ 32 + 1, 0), (2 ^ 32 + 2, 1), (2 ^ 32, 0), (1, 0)]
        [some 0, none, none] [-1, -1, -1] [0, 0, 0] [0, 1, 1, 2]) "A-C" (Real.exp 3) =
      (.ok, st3 [[⟨1, -1⟩, ⟨2, -Real.log (Real.exp 3)⟩], [⟨0, 1⟩, ⟨2, -1⟩], [⟨1, 1⟩, ⟨0, -Real.log (1 / Real.exp 3)⟩]]
        [(2 * 2 ^ 32, 1), (2, 1), (2 * 2 ^ 32 + 1, 0), (2 ^ 32 + 2, 1), (2 ^ 32, 0), (1, 0)]
        [some 0, none, none] [-1, -1, -1] [0, 0, 0] [0, 1, 1, 2, 0, 2]) := rfl
  show (update_price S2g2 "A-C" (Real.exp 3)).2 = _
  rw [S2g2_eq, key]
  norm_num [st3, ArbitrageGraph.mk.injEq, Edge.mk.injEq, Real.log_exp,
    Real.log_inv]

theorem S2f1_step1 (n : ℕ) :
    spfaLoop (n + 1)
      (st3 [[⟨1, -1⟩, ⟨2, -3⟩], [⟨0, 1⟩, ⟨2, -1⟩], [⟨1, 1⟩, ⟨0, 3⟩]]
        [(2 * 2 ^ 32, 1), (2, 1), (2 * 2 ^ 32 + 1, 0), (2 ^ 32 + 2, 1), (2 ^ 32, 0), (1, 0)]
        [some 0, none, none] [-1, -1, -1] [0, 0, 0] [0, 1, 1, 2, 0, 2]) =
    spfaLoop n
      (st3 [[⟨1, -1⟩, ⟨2, -3⟩], [⟨0, 1⟩, ⟨2, -1⟩], [⟨1, 1⟩, ⟨0, 3⟩]]
        [(2 * 2 ^ 32, 1), (2, 1), (2 * 2 ^ 32 + 1, 0), (2 ^ 32 + 2, 1), (2 ^ 32, 0), (1, 0)]
        [some 0, some (-1), some (-3)] [-1, 0, 0] [0, 1, 1] [1, 1, 2, 0, 2, 1, 2]) := by
  simp only [spfaLoop, st3, relaxLoop, applyRelax, List.getD]
  norm_num

theorem S2f1_step2 (n : ℕ) :
    spfaLoop (n + 1)
      (st3 [[⟨1, -1⟩, ⟨2, -3⟩], [⟨0, 1⟩, ⟨2, -1⟩], [⟨1, 1⟩, ⟨0, 3⟩]]
        [(2 * 2 ^ 32, 1), (2, 1), (2 * 2 ^ 32 + 1, 0), (2 ^ 32 + 2, 1), (2 ^ 32, 0), (1, 0)]
        [some 0, some (-1), some (-3)] [-1, 0, 0] [0, 1, 1] [1, 1, 2, 0, 2, 1, 2]) =
    spfaLoop n
      (st3 [[⟨1, -1⟩, ⟨2, -3⟩], [⟨0, 1⟩, ⟨2, -1⟩], [⟨1, 1⟩, ⟨0, 3⟩]]
        [(2 * 2 ^ 32, 1), (2, 1), (2 * 2 ^ 32 + 1, 0), (2 ^ 32 + 2, 1), (2 ^ 32, 0), (1, 0)]
        [some 0, some (-1), some (-3)] [-1, 0, 0] [0, 1, 1] [1, 2, 0, 2, 1, 2]) := by
  simp only [spfaLoop, st3, relaxLoop, applyRelax, List.getD]
  norm_num

theorem S2f1_step3 (n : ℕ) :
    spfaLoop (n + 1)
      (st3 [[⟨1, -1⟩, ⟨2, -3⟩], [⟨0, 1⟩, ⟨2, -1⟩], [⟨1, 1⟩, ⟨0, 3⟩]]
        [(2 * 2 ^ 32, 1), (2, 1), (2 * 2 ^ 32 + 1, 0), (2 ^ 32 + 2, 1), (2 ^ 32, 0), (1, 0)]
        [some 0, some (-1), some (-3)] [-1, 0, 0] [0, 1, 1] [1, 2, 0, 2, 1, 2]) =
    spfaLoop n
      (st3 [[⟨1, -1⟩, ⟨2, -3⟩], [⟨0, 1⟩, ⟨2, -1⟩], [⟨1, 1⟩, ⟨0, 3⟩]]
        [(2 * 2 ^ 32, 1), (2, 1), (2 * 2 ^ 32 + 1, 0), (2 ^ 32 + 2, 1), (2 ^ 32, 0), (1, 0)]
        [some 0, some (-1), some (-3)] [-1, 0, 0] [0, 1, 1] [2, 0, 2, 1, 2]) := by
  simp only [spfaLoop, st3, relaxLoop, applyRelax, List.getD]
  norm_num

theorem S2f1_step4 (n : ℕ) :
    spfaLoop (n + 1)
      (st3 [[⟨1, -1⟩, ⟨2, -3⟩], [⟨0, 1⟩, ⟨2, -1⟩], [⟨1, 1⟩, ⟨0, 3⟩]]
        [(2 * 2 ^ 32, 1), (2, 1), (2 * 2 ^ 32 + 1, 0), (2 ^ 32 + 2, 1), (2 ^ 32, 0), (1, 0)]
        [some 0, some (-1), some (-3)] [-1, 0, 0] [0, 1, 1] [2, 0, 2, 1, 2]) =
    spfaLoop n
      (st3 [[⟨1, -1⟩, ⟨2, -3⟩], [⟨0, 1⟩, ⟨2, -1⟩], [⟨1, 1⟩, ⟨0, 3⟩]]
        [(2 * 2 ^ 32, 1), (2, 1), (2 * 2 ^ 32 + 1, 0), (2 ^ 32 + 2, 1), (2 ^ 32, 0), (1, 0)]
        [some 0, some (-2), some (-3)] [-1, 2, 0] [0, 2, 1] [0, 2, 1, 2, 1]) := by
  simp only [spfaLoop, st3, relaxLoop, applyRelax, List.getD]
  norm_num

theorem S2f1_step5 (n : ℕ) :
    spfaLoop (n + 1)
      (st3 [[⟨1, -1⟩, ⟨2, -3⟩], [⟨0, 1⟩, ⟨2, -1⟩], [⟨1, 1⟩, ⟨0, 3⟩]]
        [(2 * 2 ^ 32, 1), (2, 1), (2 * 2 ^ 32 + 1, 0), (2 ^ 32 + 2, 1), (2 ^ 32, 0), (1, 0)]
        [some 0, some (-2), some (-3)] [-1, 2, 0] [0, 2, 1] [0, 2, 1, 2, 1]) =
    spfaLoop n
      (st3 [[⟨1, -1⟩, ⟨2, -3⟩], [⟨0, 1⟩, ⟨2, -1⟩], [⟨1, 1⟩, ⟨0, 3⟩]]
        [(2 * 2 ^ 32, 1), (2, 1), (2 * 2 ^ 32 + 1, 0), (2 ^ 32 + 2, 1), (2 ^ 32, 0), (1, 0)]
        [some 0, some (-2), some (-3)] [-1, 2, 0] [0, 2, 1] [2, 1, 2, 1]) := by
  simp only [spfaLoop, st3, relaxLoop, applyRelax, List.getD]
  norm_num

theorem S2f1_step6 (n : ℕ) :
    spfaLoop (n + 1)
      (st3 [[⟨1, -1⟩, ⟨2, -3⟩], [⟨0, 1⟩, ⟨2, -1⟩], [⟨1, 1⟩, ⟨0, 3⟩]]
        [(2 * 2 ^ 32, 1), (2, 1), (2 * 2 ^ 32 + 1, 0), (2 ^ 32 + 2, 1), (2 ^ 32, 0), (1, 0)]
        [some 0, some (-2), some (-3)] [-1, 2, 0] [0, 2, 1] [2, 1, 2, 1]) =
    spfaLoop n
      (st3 [[⟨1, -1⟩, ⟨2, -3⟩], [⟨0, 1⟩, ⟨2, -1⟩], [⟨1, 1⟩, ⟨0, 3⟩]]
        [(2 * 2 ^ 32, 1), (2, 1), (2 * 2 ^ 32 + 1, 0), (2 ^ 32 + 2, 1), (2 ^ 32, 0), (1, 0)]
        [some 0, some (-2), some (-3)] [-1, 2, 0] [0, 2, 1] [1, 2, 1]) := by
  simp only [spfaLoop, st3, relaxLoop, applyRelax, List.getD]
  norm_num

theorem S2f1_step7 (n : ℕ) :
    spfaLoop (n + 1)
      (st3 [[⟨1, -1⟩, ⟨2, -3⟩], [⟨0, 1⟩, ⟨2, -1⟩], [⟨1, 1⟩, ⟨0, 3⟩]]
        [(2 * 2 ^ 32, 1), (2, 1), (2 * 2 ^ 32 + 1, 0), (2 ^ 32 + 2, 1), (2 ^ 32, 0), (1, 0)]
        [some 0, some (-2), some (-3)] [-1, 2, 0] [0, 2, 1] [1, 2, 1]) =
    spfaLoop n
      (st3 [[⟨1, -1⟩, ⟨2, -3⟩], [⟨0, 1⟩, ⟨2, -1⟩], [⟨1, 1⟩, ⟨0, 3⟩]]
        [(2 * 2 ^ 32, 1), (2, 1), (2 * 2 ^ 32 + 1, 0), (2 ^ 32 + 2, 1), (2 ^ 32, 0), (1, 0)]
        [some (-1), some (-2), some (-3)] [1, 2, 0] [1, 2, 1] [2, 1, 0]) := by
  simp only [spfaLoop, st3, relaxLoop, applyRelax, List.getD]
  norm_num

theorem S2f1_step8 (n : ℕ) :
    spfaLoop (n + 1)
      (st3 [[⟨1, -1⟩, ⟨2, -3⟩], [⟨0, 1⟩, ⟨2, -1⟩], [⟨1, 1⟩, ⟨0, 3⟩]]
        [(2 * 2 ^ 32, 1), (2, 1), (2 * 2 ^ 32 + 1, 0), (2 ^ 32 + 2, 1), (2 ^ 32, 0), (1, 0)]
        [some (-1), some (-2), some (-3)] [1, 2, 0] [1, 2, 1] [2, 1, 0]) =
    spfaLoop n
      (st3 [[⟨1, -1⟩, ⟨2, -3⟩], [⟨0, 1⟩, ⟨2, -1⟩], [⟨1, 1⟩, ⟨0, 3⟩]]
        [(2 * 2 ^ 32, 1), (2, 1), (2 * 2 ^ 32 + 1, 0), (2 ^ 32 + 2, 1), (2 ^ 32, 0), (1, 0)]
        [some (-1), some (-2), some (-3)] [1, 2, 0] [1, 2, 1] [1, 0]) := by
  simp only [spfaLoop, st3, relaxLoop, applyRelax, List.getD]
  norm_num

theorem S2f1_step9 (n : ℕ) :
    spfaLoop (n + 1)
      (st3 [[⟨1, -1⟩, ⟨2, -3⟩], [⟨0, 1⟩, ⟨2, -1⟩], [⟨1, 1⟩, ⟨0, 3⟩]]
        [(2 * 2 ^ 32, 1), (2, 1), (2 * 2 ^ 32 + 1, 0), (2 ^ 32 + 2, 1), (2 ^ 32, 0), (1, 0)]
        [some (-1), some (-2), some (-3)] [1, 2, 0] [1, 2, 1] [1, 0]) =
    spfaLoop n
      (st3 [[⟨1, -1⟩, ⟨2, -3⟩], [⟨0, 1⟩, ⟨2, -1⟩], [⟨1, 1⟩, ⟨0, 3⟩]]
        [(2 * 2 ^ 32, 1), (2, 1), (2 * 2 ^ 32 + 1, 0), (2 ^ 32 + 2, 1), (2 ^ 32, 0), (1, 0)]
        [some (-1), some (-2), some (-3)] [1, 2, 0] [1, 2, 1] [0]) := by
  simp only [spfaLoop, st3, relaxLoop, applyRelax, List.getD]
  norm_num

theorem S2f1_step10 (n : ℕ) :
    spfaLoop (n + 1)
      (st3 [[⟨1, -1⟩, ⟨2, -3⟩], [⟨0, 1⟩, ⟨2, -1⟩], [⟨1, 1⟩, ⟨0, 3⟩]]
        [(2 * 2 ^ 32, 1), (2, 1), (2 * 2 ^ 32 + 1, 0), (2 ^ 32 + 2, 1), (2 ^ 32, 0), (1, 0)]
        [some (-1), some (-2), some (-3)] [1, 2, 0] [1, 2, 1] [0]) =
    spfaLoop n
      (st3 [[⟨1, -1⟩, ⟨2, -3⟩], [⟨0, 1⟩, ⟨2, -1⟩], [⟨1, 1⟩, ⟨0, 3⟩]]
        [(2 * 2 ^ 32, 1), (2, 1), (2 * 2 ^ 32 + 1, 0), (2 ^ 32 + 2, 1), (2 ^ 32, 0), (1, 0)]
        [some (-1), some (-2), some (-4)] [1, 2, 0] [1, 2, 2] [2]) := by
  simp only [spfaLoop, st3, relaxLoop, applyRelax, List.getD]
  norm_num

theorem S2f1_step11 (n : ℕ) :
    spfaLoop (n + 1)
      (st3 [[⟨1, -1⟩, ⟨2, -3⟩], [⟨0, 1⟩, ⟨2, -1⟩], [⟨1, 1⟩, ⟨0, 3⟩]]
        [(2 * 2 ^ 32, 1), (2, 1), (2 * 2 ^ 32 + 1, 0), (2 ^ 32 + 2, 1), (2 ^ 32, 0), (1, 0)]
        [some (-1), some (-2), some (-4)] [1, 2, 0] [1, 2, 2] [2]) =
    some (.ok (some ["B", "A", "C", "B"]),
      st3 [[⟨1, -1⟩, ⟨2, -3⟩], [⟨0, 1⟩, ⟨2, -1⟩], [⟨1, 1⟩, ⟨0, 3⟩]]
      [(2 * 2 ^ 32, 1), (2, 1), (2 * 2 ^ 32 + 1, 0), (2 ^ 32 + 2, 1), (2 ^ 32, 0), (1, 0)]
      [some (-1), some (-3), some (-4)] [1, 2, 0] [1, 3, 2] [1]) := by
  simp only [spfaLoop, st3, relaxLoop, applyRelax, List.getD]
  norm_num [reconstruct_cycle, predWalk, collectCycle, vecAt,
    mapNames, Except.map, toNat_lit_two, toNat_lit_neg_one]

theorem S2f1_eq : find_arbitrage_cycle S2g3 =
    (.ok (some ["B", "A", "C", "B"]),
     st3 [[⟨1, -1⟩, ⟨2, -3⟩], [⟨0, 1⟩, ⟨2, -1⟩], [⟨1, 1⟩, ⟨0, 3⟩]]
     [(2 * 2 ^ 32, 1), (2, 1), (2 * 2 ^ 32 + 1, 0), (2 ^ 32 + 2, 1), (2 ^ 32, 0), (1, 0)]
     [some (-1), some (-3), some (-4)] [1, 2, 0] [1, 3, 2] [1]) := by
  rw [S2g3_eq]
  simp only [find_arbitrage_cycle]
  rw [show fuelBound
      (st3 [[⟨1, -1⟩, ⟨2, -3⟩], [⟨0, 1⟩, ⟨2, -1⟩], [⟨1, 1⟩, ⟨0, 3⟩]]
        [(2 * 2 ^ 32, 1), (2, 1), (2 * 2 ^ 32 + 1, 0), (2 ^ 32 + 2, 1), (2 ^ 32, 0), (1, 0)]
        [some 0, none, none] [-1, -1, -1] [0, 0, 0] [0, 1, 1, 2, 0, 2]) = 15 + 1 from rfl]
  rw [S2f1_step1 15, S2f1_step2 14, S2f1_step3 13, S2f1_step4 12, S2f1_step5 11, S2f1_step6 10, S2f1_step7 9, S2f1_step8 8, S2f1_step9 7, S2f1_step10 6, S2f1_step11 5]
  rfl

theorem S2g4_eq : S2g4 =
    st3 [[⟨1, -1⟩, ⟨2, -3⟩], [⟨0, 1⟩, ⟨2, -1⟩], [⟨1, 1⟩, ⟨0, 3⟩]]
      [(2 * 2 ^ 32, 1), (2, 1), (2 * 2 ^ 32 + 1, 0), (2 ^ 32 + 2, 1), (2 ^ 32, 0), (1, 0)]
      [some (-1), some (-3), some (-4)] [1, 2, 0] [1, 3, 2] [1] := by
  show (find_arbitrage_cycle S2g3).2 = _
  rw [S2f1_eq]

theorem S2g5_eq : S2g5 =
    st3 [[⟨1, -1⟩, ⟨2, -2⟩], [⟨0, 1⟩, ⟨2, -1⟩], [⟨1, 1⟩, ⟨0, 2⟩]]
      [(2 * 2 ^ 32, 1), (2, 1), (2 * 2 ^ 32 + 1, 0), (2 ^ 32 + 2, 1), (2 ^ 32, 0), (1, 0)]
      [some (-1), some (-3), some (-4)] [1, 2, 0] [1, 3, 2] [1, 0, 2] := by
  have key : update_price
      (st3 [[⟨1, -1⟩, ⟨2, -3⟩], [⟨0, 1⟩, ⟨2, -1⟩], [⟨1, 1⟩, ⟨0, 3⟩]]
        [(2 * 2 ^ 32, 1), (2, 1), (2 * 2 ^ 32 + 1, 0), (2 ^ 32 + 2, 1), (2 ^ 32, 0), (1, 0)]
        [some (-1), some (-3), some (-4)] [1, 2, 0] [1, 3, 2] [1]) "A-C" (Real.exp 2) =
      (.ok, st3 [[⟨1, -1⟩, ⟨2, -Real.log (Real.exp 2)⟩], [⟨0, 1⟩, ⟨2, -1⟩], [⟨1, 1⟩, ⟨0, -Real.log (1 / Real.exp 2)⟩]]
        [(2 * 2 ^ 32, 1), (2, 1), (2 * 2 ^ 32 + 1, 0), (2 ^ 32 + 2, 1), (2 ^ 32, 0), (1, 0)]
        [some (-1), some (-3), some (-4)] [1, 2, 0] [1, 3, 2] [1, 0, 2]) := rfl
  show (update_price S2g4 "A-C" (Real.exp 2)).2 = _
  rw [S2g4_eq, key]
  norm_num [st3, ArbitrageGraph.mk.injEq, Edge.mk.injEq, Real.log_exp,
    Real.log_inv]

theorem S2f2_step1 (n : ℕ) :
    spfaLoop (n + 1)
      (st3 [[⟨1, -1⟩, ⟨2, -2⟩], [⟨0, 1⟩, ⟨2, -1⟩], [⟨1, 1⟩, ⟨0, 2⟩]]
        [(2 * 2 ^ 32, 1), (2, 1), (2 * 2 ^ 32 + 1, 0), (2 ^ 32 + 2, 1), (2 ^ 32, 0), (1, 0)]
        [some (-1), some (-3), some (-4)] [1, 2, 0] [1, 3, 2] [1, 0, 2]) =
    spfaLoop n
      (st3 [[⟨1, -1⟩, ⟨2, -2⟩], [⟨0, 1⟩, ⟨2, -1⟩], [⟨1, 1⟩, ⟨0, 2⟩]]
        [(2 * 2 ^ 32, 1), (2, 1), (2 * 2 ^ 32 + 1, 0), (2 ^ 32 + 2, 1), (2 ^ 32, 0), (1, 0)]
        [some (-2), some (-3), some (-4)] [1, 2, 0] [2, 3, 2] [0, 2, 0]) := by
  simp only [spfaLoop, st3, relaxLoop, applyRelax, List.getD]
  norm_num

theorem S2f2_step2 (n : ℕ) :
    spfaLoop (n + 1)
      (st3 [[⟨1, -1⟩, ⟨2, -2⟩], [⟨0, 1⟩, ⟨2, -1⟩], [⟨1, 1⟩, ⟨0, 2⟩]]
        [(2 * 2 ^ 32, 1), (2, 1), (2 * 2 ^ 32 + 1, 0), (2 ^ 32 + 2, 1), (2 ^ 32, 0), (1, 0)]
        [some (-2), some (-3), some (-4)] [1, 2, 0] [2, 3, 2] [0, 2, 0]) =
    spfaLoop n
      (st3 [[⟨1, -1⟩, ⟨2, -2⟩], [⟨0, 1⟩, ⟨2, -1⟩], [⟨1, 1⟩, ⟨0, 2⟩]]
        [(2 * 2 ^ 32, 1), (2, 1), (2 * 2 ^ 32 + 1, 0), (2 ^ 32 + 2, 1), (2 ^ 32, 0), (1, 0)]
        [some (-2), some (-3), some (-4)] [1, 2, 0] [2, 3, 2] [2, 0]) := by
  simp only [spfaLoop, st3, relaxLoop, applyRelax, List.getD]
  norm_num

theorem S2f2_step3 (n : ℕ) :
    spfaLoop (n + 1)
      (st3 [[⟨1, -1⟩, ⟨2, -2⟩], [⟨0, 1⟩, ⟨2, -1⟩], [⟨1, 1⟩, ⟨0, 2⟩]]
        [(2 * 2 ^ 32, 1), (2, 1), (2 * 2 ^ 32 + 1, 0), (2 ^ 32 + 2, 1), (2 ^ 32, 0), (1, 0)]
        [some (-2), some (-3), some (-4)] [1, 2, 0] [2, 3, 2] [2, 0]) =
    spfaLoop n
      (st3 [[⟨1, -1⟩, ⟨2, -2⟩], [⟨0, 1⟩, ⟨2, -1⟩], [⟨1, 1⟩, ⟨0, 2⟩]]
        [(2 * 2 ^ 32, 1), (2, 1), (2 * 2 ^ 32 + 1, 0), (2 ^ 32 + 2, 1), (2 ^ 32, 0), (1, 0)]
        [some (-2), some (-3), some (-4)] [1, 2, 0] [2, 3, 2] [0]) := by
  simp only [spfaLoop, st3, relaxLoop, applyRelax, List.getD]
  norm_num

theorem S2f2_step4 (n : ℕ) :
    spfaLoop (n + 1)
      (st3 [[⟨1, -1⟩, ⟨2, -2⟩], [⟨0, 1⟩, ⟨2, -1⟩], [⟨1, 1⟩, ⟨0, 2⟩]]
        [(2 * 2 ^ 32, 1), (2, 1), (2 * 2 ^ 32 + 1, 0), (2 ^ 32 + 2, 1), (2 ^ 32, 0), (1, 0)]
        [some (-2), some (-3), some (-4)] [1, 2, 0] [2, 3, 2] [0]) =
    spfaLoop n
      (st3 [[⟨1, -1⟩, ⟨2, -2⟩], [⟨0, 1⟩, ⟨2, -1⟩], [⟨1, 1⟩, ⟨0, 2⟩]]
        [(2 * 2 ^ 32, 1), (2, 1), (2 * 2 ^ 32 + 1, 0), (2 ^ 32 + 2, 1), (2 ^ 32, 0), (1, 0)]
        [some (-2), some (-3), some (-4)] [1, 2, 0] [2, 3, 2] []) := by
  simp only [spfaLoop, st3, relaxLoop, applyRelax, List.getD]
  norm_num

theorem S2f2_last (n : ℕ) :
    spfaLoop (n + 1)
      (st3 [[⟨1, -1⟩, ⟨2, -2⟩], [⟨0, 1⟩, ⟨2, -1⟩], [⟨1, 1⟩, ⟨0, 2⟩]]
        [(2 * 2 ^ 32, 1), (2, 1), (2 * 2 ^ 32 + 1, 0), (2 ^ 32 + 2, 1), (2 ^ 32, 0), (1, 0)]
        [some (-2), some (-3), some (-4)] [1, 2, 0] [2, 3, 2] []) =
    some (.ok none,
      st3 [[⟨1, -1⟩, ⟨2, -2⟩], [⟨0, 1⟩, ⟨2, -1⟩], [⟨1, 1⟩, ⟨0, 2⟩]]
      [(2 * 2 ^ 32, 1), (2, 1), (2 * 2 ^ 32 + 1, 0), (2 ^ 32 + 2, 1), (2 ^ 32, 0), (1, 0)]
      [some (-2), some (-3), some (-4)] [1, 2, 0] [2, 3, 2] []) := by
  simp only [spfaLoop, st3]

theorem S2f2_eq : find_arbitrage_cycle S2g5 =
    (.ok none,
     st3 [[⟨1, -1⟩, ⟨2, -2⟩], [⟨0, 1⟩, ⟨2, -1⟩], [⟨1, 1⟩, ⟨0, 2⟩]]
     [(2 * 2 ^ 32, 1), (2, 1), (2 * 2 ^ 32 + 1, 0), (2 ^ 32 + 2, 1), (2 ^ 32, 0), (1, 0)]
     [some (-2), some (-3), some (-4)] [1, 2, 0] [2, 3, 2] []) := by
  rw [S2g5_eq]
  simp only [find_arbitrage_cycle]
  rw [show fuelBound
      (st3 [[⟨1, -1⟩, ⟨2, -2⟩], [⟨0, 1⟩, ⟨2, -1⟩], [⟨1, 1⟩, ⟨0, 2⟩]]
        [(2 * 2 ^ 32, 1), (2, 1), (2 * 2 ^ 32 + 1, 0), (2 ^ 32 + 2, 1), (2 ^ 32, 0), (1, 0)]
        [some (-1), some (-3), some (-4)] [1, 2, 0] [1, 3, 2] [1, 0, 2]) = 12 + 1 from rfl]
  rw [S2f2_step1 12, S2f2_step2 11, S2f2_step3 10, S2f2_step4 9, S2f2_last 8]
  rfl

theorem S2g6_eq : S2g6 =
    st3 [[⟨1, -1⟩, ⟨2, -2⟩], [⟨0, 1⟩, ⟨2, -1⟩], [⟨1, 1⟩, ⟨0, 2⟩]]
      [(2 * 2 ^ 32, 1), (2, 1), (2 * 2 ^ 32 + 1, 0), (2 ^ 32 + 2, 1), (2 ^ 32, 0), (1, 0)]
      [some (-2), some (-3), some (-4)] [1, 2, 0] [2, 3, 2] [] := by
  show (find_arbitrage_cycle S2g5).2 = _
  rw [S2f2_eq]

theorem S2g7_eq : S2g7 =
    st3 [[⟨1, -2⟩, ⟨2, -2⟩], [⟨0, 2⟩, ⟨2, -1⟩], [⟨1, 1⟩, ⟨0, 2⟩]]
      [(2 * 2 ^ 32, 1), (2, 1), (2 * 2 ^ 32 + 1, 0), (2 ^ 32 + 2, 1), (2 ^ 32, 0), (1, 0)]
      [some (-2), some (-3), some (-4)] [1, 2, 0] [2, 3, 2] [0, 1] := by
  have key : update_price
      (st3 [[⟨1, -1⟩, ⟨2, -2⟩], [⟨0, 1⟩, ⟨2, -1⟩], [⟨1, 1⟩, ⟨0, 2⟩]]
        [(2 * 2 ^ 32, 1), (2, 1), (2 * 2 ^ 32 + 1, 0), (2 ^ 32 + 2, 1), (2 ^ 32, 0), (1, 0)]
        [some (-2), some (-3), some (-4)] [1, 2, 0] [2, 3, 2] []) "A-B" (Real.exp 2) =
      (.ok, st3 [[⟨1, -Real.log (Real.exp 2)⟩, ⟨2, -2⟩], [⟨0, -Real.log (1 / Real.exp 2)⟩, ⟨2, -1⟩], [⟨1, 1⟩, ⟨0, 2⟩]]
        [(2 * 2 ^ 32, 1), (2, 1), (2 * 2 ^ 32 + 1, 0), (2 ^ 32 + 2, 1), (2 ^ 32, 0), (1, 0)]
        [some (-2), some (-3), some (-4)] [1, 2, 0] [2, 3, 2] [0, 1]) := rfl
  show (update_price S2g6 "A-B" (Real.exp 2)).2 = _
  rw [S2g6_eq, key]
  norm_num [st3, ArbitrageGraph.mk.injEq, Edge.mk.injEq, Real.log_exp,
    Real.log_inv]

theorem S2f3_step1 (n : ℕ) :
    spfaLoop (n + 1)
      (st3 [[⟨1, -2⟩, ⟨2, -2⟩], [⟨0, 2⟩, ⟨2, -1⟩], [⟨1, 1⟩, ⟨0, 2⟩]]
        [(2 * 2 ^ 32, 1), (2, 1), (2 * 2 ^ 32 + 1, 0), (2 ^ 32 + 2, 1), (2 ^ 32, 0), (1, 0)]
        [some (-2), some (-3), some (-4)] [1, 2, 0] [2, 3, 2] [0, 1]) =
    some (.ok (some ["A", "B", "A"]),
      st3 [[⟨1, -2⟩, ⟨2, -2⟩], [⟨0, 2⟩, ⟨2, -1⟩], [⟨1, 1⟩, ⟨0, 2⟩]]
      [(2 * 2 ^ 32, 1), (2, 1), (2 * 2 ^ 32 + 1, 0), (2 ^ 32 + 2, 1), (2 ^ 32, 0), (1, 0)]
      [some (-2), some (-4), some (-4)] [1, 0, 0] [2, 4, 2] [1, 1]) := by
  simp only [spfaLoop, st3, relaxLoop, applyRelax, List.getD]
  norm_num [reconstruct_cycle, predWalk, collectCycle, vecAt,
    mapNames, Except.map, toNat_lit_two, toNat_lit_neg_one]

theorem S2f3_eq : find_arbitrage_cycle S2g7 =
    (.ok (some ["A", "B", "A"]),
     st3 [[⟨1, -2⟩, ⟨2, -2⟩], [⟨0, 2⟩, ⟨2, -1⟩], [⟨1, 1⟩, ⟨0, 2⟩]]
     [(2 * 2 ^ 32, 1), (2, 1), (2 * 2 ^ 32 + 1, 0), (2 ^ 32 + 2, 1), (2 ^ 32, 0), (1, 0)]
     [some (-2), some (-4), some (-4)] [1, 0, 0] [2, 4, 2] [1, 1]) := by
  rw [S2g7_eq]
  simp only [find_arbitrage_cycle]
  rw [show fuelBound
      (st3 [[⟨1, -2⟩, ⟨2, -2⟩], [⟨0, 2⟩, ⟨2, -1⟩], [⟨1, 1⟩, ⟨0, 2⟩]]
        [(2 * 2 ^ 32, 1), (2, 1), (2 * 2 ^ 32 + 1, 0), (2 ^ 32 + 2, 1), (2 ^ 32, 0), (1, 0)]
        [some (-2), some (-3), some (-4)] [1, 2, 0] [2, 3, 2] [0, 1]) = 11 + 1 from rfl]
  rw [S2f3_step1 11]
  rfl


/-! ### Behaviour of `upsertEdge` -/

theorem upsertEdge_dirty (g : ArbitrageGraph) (src dst : ℕ) (w : ℝ) :
    (upsertEdge g src dst w).dirty_vertices = g.dirty_vertices := by
  unfold upsertEdge
  cases hm : alookup g.edge_index_map (create_edge_key src dst) <;> simp [hm]

theorem upsertEdge_currency (g : ArbitrageGraph) (src dst : ℕ) (w : ℝ) :
    (upsertEdge g src dst w).currency_to_id = g.currency_to_id := by
  unfold upsertEdge
  cases hm : alookup g.edge_index_map (create_edge_key src dst) <;> simp [hm]

theorem upsertEdge_num_vertices (g : ArbitrageGraph) (src dst : ℕ) (w : ℝ) :
    (upsertEdge g src dst w).num_vertices = g.num_vertices := by
  unfold upsertEdge
  cases hm : alookup g.edge_index_map (create_edge_key src dst) <;> simp [hm]

/-- `upsertEdge` keeps every existing key's index: an in-place weight
write does not touch the map, and an insertion conses a key that was
absent. -/
theorem upsertEdge_map_lookup {g : ArbitrageGraph} {k i : ℕ}
    (src dst : ℕ) (w : ℝ) (h : alookup g.edge_index_map k = some i) :
    alookup (upsertEdge g src dst w).edge_index_map k = some i := by
  unfold upsertEdge
  cases hm : alookup g.edge_index_map (create_edge_key src dst) with
  | none =>
      have hne : k ≠ create_edge_key src dst := by
        intro he
        rw [he, hm] at h
        cases h
      simp only [hm]
      rw [alookup_cons_ne hne]
      exact h
  | some idx =>
      simp only [hm]
      exact h

/-- `upsertEdge` does not change lookups of other keys. -/
theorem upsertEdge_map_other {g : ArbitrageGraph} {k : ℕ}
    (src dst : ℕ) (w : ℝ) (h : k ≠ create_edge_key src dst) :
    alookup (upsertEdge g src dst w).edge_index_map k =
      alookup g.edge_index_map k := by
  unfold upsertEdge
  cases hm : alookup g.edge_index_map (create_edge_key src dst) with
  | none => simp [hm, alookup_cons_ne h]
  | some idx => simp [hm]

/-- `upsertEdge` leaves the rows of all other vertices untouched. -/
theorem upsertEdge_row_other {g : ArbitrageGraph} {u : ℕ}
    (src dst : ℕ) (w : ℝ) (h : u ≠ src) :
    (upsertEdge g src dst w).adjacency_list.getD u [] =
      g.adjacency_list.getD u [] := by
  unfold upsertEdge
  cases hm : alookup g.edge_index_map (create_edge_key src dst) with
  | none =>
      simp [hm, List.getD_eq_getElem?_getD, List.getElem?_set_ne (Ne.symm h)]
  | some idx =>
      simp [hm, List.getD_eq_getElem?_getD, List.getElem?_set_ne (Ne.symm h)]

/-- The row of the written vertex only grows, and existing positions
keep their destination. -/
theorem upsertEdge_row_src (g : ArbitrageGraph) (src dst : ℕ) (w : ℝ) :
    (g.adjacency_list.getD src []).length ≤
      ((upsertEdge g src dst w).adjacency_list.getD src []).length ∧
    ∀ j, j < (g.adjacency_list.getD src []).length →
      (((upsertEdge g src dst w).adjacency_list.getD src [])[j]?).map
          (fun e => e.destination_id) =
        ((g.adjacency_list.getD src [])[j]?).map (fun e => e.destination_id) := by
  by_cases hsrc : src < g.adjacency_list.length
  · unfold upsertEdge
    cases hm : alookup g.edge_index_map (create_edge_key src dst) with
    | none =>
        constructor
        · simp [hm, List.getD_eq_getElem?_getD, List.getElem?_set_self hsrc]
        · intro j hj
          rw [List.getD_eq_getElem?_getD] at hj
          simp only [hm, List.getD_eq_getElem?_getD,
            List.getElem?_set_self hsrc, Option.getD_some]
          rw [List.getElem?_append_left hj]
    | some idx =>
        constructor
        · simp [hm, List.getD_eq_getElem?_getD, List.getElem?_set_self hsrc,
            List.length_modify]
        · intro j hj
          simp only [hm, List.getD_eq_getElem?_getD,
            List.getElem?_set_self hsrc, Option.getD_some]
          by_cases hij : idx = j
          · subst hij
            rw [List.getElem?_modify_eq]
            cases (g.adjacency_list[src]?.getD [])[idx]? <;> rfl
          · rw [List.getElem?_modify_ne _ _ hij]
  · have hset : ∀ row, g.adjacency_list.set src row = g.adjacency_list :=
      fun row => List.set_eq_of_length_le (by omega)
    unfold upsertEdge
    cases hm : alookup g.edge_index_map (create_edge_key src dst) with
    | none => simp [hm, hset]
    | some idx => simp [hm, hset]

/-! ### C7, C4, C5, C6 -/

/-- C7: constructing the engine from an empty symbol list gives
`N = 0`, and a subsequent `find_arbitrage_cycle` returns "no cycle"
immediately; but the constructor's unconditional `distance[0] = 0.0`
write is out of bounds for the size-0 distance vector (undefined
behaviour in the C++ source), contradicting the claim that all
per-vertex state is safely initialized with no out-of-bounds access. -/
theorem empty_construction_oob_write :
    ¬ distanceWriteInBounds [] ∧
    (find_arbitrage_cycle (mkArbitrageGraph [])).1 = .ok none := by
  constructor
  · intro h
    unfold distanceWriteInBounds at h
    have h0 : (mkArbitrageGraph []).num_vertices = 0 := rfl
    rw [h0] at h
    exact Nat.lt_irrefl 0 h
  · rfl

/-- C4: `update_price` performs no validation of `price`.  At the
non-positive price `0` the call succeeds (`.ok`, not any error), both
endpoints are enqueued and the edge rows are created — the graph is
mutated.  There is no `InvalidPrice` outcome anywhere in the code. -/
theorem update_price_accepts_nonpositive_price :
    (update_price (mkArbitrageGraph ["A-B"]) "A-B" 0).1 = .ok ∧
    (update_price (mkArbitrageGraph ["A-B"]) "A-B" 0).2.dirty_vertices = [0, 1] ∧
    (((update_price (mkArbitrageGraph ["A-B"]) "A-B" 0).2.adjacency_list.getD 0
      []).length = 1) ∧
    ((mkArbitrageGraph ["A-B"]).adjacency_list.getD 0 []).length = 0 := by
  exact ⟨rfl, rfl, rfl, rfl⟩

/-- Reduction of `update_price` when the symbol parses and both
currencies are registered: two edge upserts followed by the dirty
enqueues. -/
theorem update_price_eq_ok (g : ArbitrageGraph) (s : String) (p : ℝ)
    (bc qc : String) (a b : ℕ)
    (hs : splitSymbol s = some (bc, qc))
    (ha : alookup g.currency_to_id bc = some a)
    (hb : alookup g.currency_to_id qc = some b) :
    update_price g s p =
      (.ok,
       { upsertEdge (upsertEdge g a b (-Real.log p)) b a (-Real.log (1 / p)) with
           dirty_vertices :=
             (upsertEdge (upsertEdge g a b (-Real.log p)) b a
               (-Real.log (1 / p))).dirty_vertices ++ [a, b] }) := by
  unfold update_price
  rw [hs]
  simp only [ha, hb]

/-- Reduction of `update_price` on an unparseable symbol. -/
theorem update_price_split_none (g : ArbitrageGraph) (s : String) (p : ℝ)
    (hs : splitSymbol s = none) : update_price g s p = (.malformedSymbol, g) := by
  unfold update_price
  rw [hs]

/-- C4 (amended): for any price whatsoever — positive, zero, negative —
`update_price` on a parseable symbol with registered currencies returns
normally and mutates the graph (both endpoints are appended to the
dirty queue); no price check exists. -/
theorem update_price_ignores_price (g : ArbitrageGraph) (s : String)
    (p : ℝ) (bc qc : String) (a b : ℕ)
    (hs : splitSymbol s = some (bc, qc))
    (ha : alookup g.currency_to_id bc = some a)
    (hb : alookup g.currency_to_id qc = some b) :
    (update_price g s p).1 = .ok ∧
    (update_price g s p).2.dirty_vertices = g.dirty_vertices ++ [a, b] := by
  unfold update_price
  rw [hs]
  simp [ha, hb, upsertEdge_dirty]

/-- C4 (amended) witness at price `-1`. -/
theorem update_price_ignores_price_witness :
    splitSymbol "A-B" = some ("A", "B") ∧
    alookup (mkArbitrageGraph ["A-B"]).currency_to_id "A" = some 0 ∧
    alookup (mkArbitrageGraph ["A-B"]).currency_to_id "B" = some 1 ∧
    ((update_price (mkArbitrageGraph ["A-B"]) "A-B" (-1)).1 = .ok ∧
     (update_price (mkArbitrageGraph ["A-B"]) "A-B" (-1)).2.dirty_vertices =
       (mkArbitrageGraph ["A-B"]).dirty_vertices ++ [0, 1]) :=
  ⟨rfl, rfl, rfl,
   update_price_ignores_price (mkArbitrageGraph ["A-B"]) "A-B" (-1) "A" "B" 0 1
     rfl rfl rfl⟩

/-- C5: a symbol with an empty side is *not* rejected as
`MalformedSymbol`.  `"A-"` parses at the `'-'`, the empty quote string
fails the registry lookup, and the call takes the `UnknownCurrency`
path (diagnostic and early return) instead of throwing. -/
theorem empty_side_is_not_malformed :
    (update_price (mkArbitrageGraph ["A-B"]) "A-" 1).1 = .unknownCurrency ∧
    (update_price (mkArbitrageGraph ["A-B"]) "A-" 1).1 ≠ .malformedSymbol := by
  exact ⟨rfl, by decide⟩

/-- C5 (amended): `update_price` throws `MalformedSymbol` exactly when
the symbol lacks the `'-'` separator, leaving the engine unchanged; an
empty side does not throw. -/
theorem missing_delimiter_malformed (g : ArbitrageGraph) (s : String)
    (p : ℝ) (h : s.data.findIdx? (fun c => c = '-') = none) :
    update_price g s p = (.malformedSymbol, g) := by
  unfold update_price splitSymbol
  rw [h]

/-- C5 (amended) witness on the spec's scenario-4 symbol `"ABUSD"`. -/
theorem missing_delimiter_malformed_witness :
    "ABUSD".data.findIdx? (fun c => c = '-') = none ∧
    update_price (mkArbitrageGraph ["A-B"]) "ABUSD" 1 =
      (.malformedSymbol, mkArbitrageGraph ["A-B"]) :=
  ⟨rfl, missing_delimiter_malformed (mkArbitrageGraph ["A-B"]) "ABUSD" 1 rfl⟩

/-- C6: an update whose base or quote is not registered reports
`UnknownCurrency` and performs no mutation at all — the state is
returned unchanged — hence a subsequent `find_arbitrage_cycle` computes
exactly what it would have computed before the failed update. -/
theorem unknown_currency_no_mutation (g : ArbitrageGraph)
    (s bc qc : String) (p : ℝ)
    (hs : splitSymbol s = some (bc, qc))
    (h : alookup g.currency_to_id bc = none ∨
         alookup g.currency_to_id qc = none) :
    update_price g s p = (.unknownCurrency, g) ∧
    find_arbitrage_cycle (update_price g s p).2 = find_arbitrage_cycle g := by
  have key : update_price g s p = (.unknownCurrency, g) := by
    unfold update_price
    rw [hs]
    cases h1 : alookup g.currency_to_id bc with
    | none =>
        cases h2 : alookup g.currency_to_id qc with
        | none => simp only [h1, h2]
        | some b => simp only [h1, h2]
    | some a =>
        cases h2 : alookup g.currency_to_id qc with
        | none => simp only [h1, h2]
        | some b =>
            rcases h with h | h
            · rw [h1] at h
              cases h
            · rw [h2] at h
              cases h
  exact ⟨key, by rw [key]⟩

/-- C6 witness: the spec's scenario 5 (`["A-B"]` registry, update for
`"A-C"`). -/
theorem unknown_currency_no_mutation_witness :
    splitSymbol "A-C" = some ("A", "C") ∧
    alookup (mkArbitrageGraph ["A-B"]).currency_to_id "C" = none ∧
    (update_price (mkArbitrageGraph ["A-B"]) "A-C" 1 =
       (.unknownCurrency, mkArbitrageGraph ["A-B"]) ∧
     find_arbitrage_cycle (update_price (mkArbitrageGraph ["A-B"]) "A-C" 1).2 =
       find_arbitrage_cycle (mkArbitrageGraph ["A-B"])) :=
  ⟨rfl, rfl,
   unknown_currency_no_mutation (mkArbitrageGraph ["A-B"]) "A-C" "A" "C" 1
     rfl (Or.inr rfl)⟩

/-- C9: edge-index stability.  Whatever `update_price` does, every key
already present in the edge index map keeps exactly its recorded index,
and every existing position of every adjacency row keeps its
destination (rows are only appended to or weight-overwritten in place,
never reordered). -/
theorem edge_index_stable (g : ArbitrageGraph) (s : String) (p : ℝ)
    (k i : ℕ) (h : alookup g.edge_index_map k = some i) :
    alookup (update_price g s p).2.edge_index_map k = some i ∧
    ∀ u j, j < (g.adjacency_list.getD u []).length →
      (((update_price g s p).2.adjacency_list.getD u [])[j]?).map
          (fun e => e.destination_id) =
        ((g.adjacency_list.getD u [])[j]?).map (fun e => e.destination_id) := by
  cases hs : splitSymbol s with
  | none =>
      rw [update_price_split_none g s p hs]
      exact ⟨h, fun u j hj => rfl⟩
  | some bq =>
      rcases bq with ⟨bc, qc⟩
      cases h1 : alookup g.currency_to_id bc with
      | none =>
          rw [(unknown_currency_no_mutation g s bc qc p hs (Or.inl h1)).1]
          exact ⟨h, fun u j hj => rfl⟩
      | some a =>
          cases h2 : alookup g.currency_to_id qc with
          | none =>
              rw [(unknown_currency_no_mutation g s bc qc p hs (Or.inr h2)).1]
              exact ⟨h, fun u j hj => rfl⟩
          | some b =>
              rw [update_price_eq_ok g s p bc qc a b hs h1 h2]
              constructor
              · exact upsertEdge_map_lookup b a (-Real.log (1 / p))
                  (upsertEdge_map_lookup a b (-Real.log p) h)
              · intro u j hj
                show (((upsertEdge (upsertEdge g a b (-Real.log p)) b a
                    (-Real.log (1 / p))).adjacency_list.getD u [])[j]?).map
                      (fun e => e.destination_id) = _
                by_cases hu2 : u = b
                · subst hu2
                  by_cases hu1 : u = a
                  · subst hu1
                    have hj1 : j < ((upsertEdge g u u
                        (-Real.log p)).adjacency_list.getD u []).length :=
                      lt_of_lt_of_le hj (upsertEdge_row_src g u u (-Real.log p)).1
                    rw [(upsertEdge_row_src _ u u (-Real.log (1 / p))).2 j hj1,
                      (upsertEdge_row_src g u u (-Real.log p)).2 j hj]
                  · have hrow : (upsertEdge g a u
                        (-Real.log p)).adjacency_list.getD u [] =
                        g.adjacency_list.getD u [] :=
                      upsertEdge_row_other a u (-Real.log p) hu1
                    have hj1 : j < ((upsertEdge g a u
                        (-Real.log p)).adjacency_list.getD u []).length := by
                      rw [hrow]
                      exact hj
                    rw [(upsertEdge_row_src _ u a (-Real.log (1 / p))).2 j hj1,
                      hrow]
                · rw [upsertEdge_row_other b a (-Real.log (1 / p)) hu2]
                  by_cases hu1 : u = a
                  · subst hu1
                    exact (upsertEdge_row_src g u b (-Real.log p)).2 j hj
                  · rw [upsertEdge_row_other a b (-Real.log p) hu1]

/-- C9 witness: a state with edge `(0,1)` at recorded index `0`
survives an `update_price` untouched. -/
theorem edge_index_stable_witness :
    alookup (st2 [[⟨1, -1⟩], [⟨0, 1⟩]] [(2 ^ 32, 0), (1, 0)]
      [some 0, none] [-1, -1] [0, 0] [0, 1]).edge_index_map 1 = some 0 ∧
    (alookup (update_price (st2 [[⟨1, -1⟩], [⟨0, 1⟩]] [(2 ^ 32, 0), (1, 0)]
        [some 0, none] [-1, -1] [0, 0] [0, 1]) "A-B" 2).2.edge_index_map 1 =
      some 0 ∧
     ∀ u j, j < ((st2 [[⟨1, -1⟩], [⟨0, 1⟩]] [(2 ^ 32, 0), (1, 0)]
        [some 0, none] [-1, -1] [0, 0] [0, 1]).adjacency_list.getD u []).length →
      (((update_price (st2 [[⟨1, -1⟩], [⟨0, 1⟩]] [(2 ^ 32, 0), (1, 0)]
          [some 0, none] [-1, -1] [0, 0] [0, 1]) "A-B" 2).2.adjacency_list.getD
            u [])[j]?).map (fun e => e.destination_id) =
        (((st2 [[⟨1, -1⟩], [⟨0, 1⟩]] [(2 ^ 32, 0), (1, 0)]
          [some 0, none] [-1, -1] [0, 0] [0, 1]).adjacency_list.getD
            u [])[j]?).map (fun e => e.destination_id)) :=
  ⟨rfl,
   edge_index_stable (st2 [[⟨1, -1⟩], [⟨0, 1⟩]] [(2 ^ 32, 0), (1, 0)]
     [some 0, none] [-1, -1] [0, 0] [0, 1]) "A-B" 2 1 0 rfl⟩

/-! ### Row lemmas for the in-place weight writes -/

theorem getD_set_self {α : Type} (l : List α) (i : ℕ) (x d : α)
    (h : i < l.length) : (l.set i x).getD i d = x := by
  simp [List.getD_eq_getElem?_getD, List.getElem?_set_self h]

theorem getD_set_ne {α : Type} (l : List α) {i u : ℕ} (x d : α)
    (h : u ≠ i) : (l.set i x).getD u d = l.getD u d := by
  simp [List.getD_eq_getElem?_getD, List.getElem?_set_ne (Ne.symm h)]

theorem upsertEdge_adj_length (g : ArbitrageGraph) (src dst : ℕ) (w : ℝ) :
    (upsertEdge g src dst w).adjacency_list.length = g.adjacency_list.length := by
  unfold upsertEdge
  cases hm : alookup g.edge_index_map (create_edge_key src dst) <;>
    simp [hm]

/-- `edgeWeight` only looks at the source's row. -/
theorem edgeWeight_congr_row {g g' : ArbitrageGraph} {u : ℕ} (v : ℕ)
    (h : g'.adjacency_list.getD u [] = g.adjacency_list.getD u []) :
    edgeWeight g' u v = edgeWeight g u v := by
  unfold edgeWeight
  rw [h]

theorem find?_dest_eq_none {row : List Edge} {v : ℕ}
    (h : ∀ (j : ℕ) (e : Edge), row[j]? = some e → e.destination_id ≠ v) :
    row.find? (fun e => e.destination_id = v) = none := by
  rw [List.find?_eq_none]
  intro x hx hpx
  obtain ⟨j, hj⟩ := List.mem_iff_getElem?.mp hx
  exact h j x hj (of_decide_eq_true hpx)

theorem find?_dest_modify_unique {row : List Edge} {i v : ℕ} {e : Edge}
    (w : ℝ) (he : row[i]? = some e) (hd : e.destination_id = v)
    (huniq : ∀ (j : ℕ) (e' : Edge), row[j]? = some e' →
      e'.destination_id = v → j = i) :
    (List.modify (fun x => { x with weight := w }) i row).find?
      (fun x => x.destination_id = v) = some ⟨v, w⟩ := by
  induction row generalizing i with
  | nil => simp at he
  | cons x xs ih =>
      cases i with
      | zero =>
          rw [List.getElem?_cons_zero] at he
          cases he
          rw [List.modify_zero_cons,
            List.find?_cons_of_pos _ (by simpa using hd)]
          simp [hd]
      | succ j =>
          have hx : x.destination_id ≠ v := by
            intro hxv
            exact Nat.succ_ne_zero j ((huniq 0 x (by simp) hxv).symm)
          rw [List.getElem?_cons_succ] at he
          rw [List.modify_succ_cons,
            List.find?_cons_of_neg _ (by simpa using hx)]
          exact ih he (fun j' e' hj' hd' => by
            have := huniq (j' + 1) e' (by simpa using hj') hd'
            omega)

theorem find?_dest_modify_other {row : List Edge} {i v : ℕ} {e : Edge}
    (w : ℝ) (he : row[i]? = some e) (hd : e.destination_id ≠ v) :
    (List.modify (fun x => { x with weight := w }) i row).find?
      (fun x => x.destination_id = v) =
      row.find? (fun x => x.destination_id = v) := by
  induction row generalizing i with
  | nil => simp at he
  | cons x xs ih =>
      cases i with
      | zero =>
          rw [List.getElem?_cons_zero] at he
          cases he
          rw [List.modify_zero_cons,
            List.find?_cons_of_neg _ (by simpa using hd),
            List.find?_cons_of_neg _ (by simpa using hd)]
      | succ j =>
          rw [List.getElem?_cons_succ] at he
          rw [List.modify_succ_cons]
          by_cases hx : x.destination_id = v
          · rw [List.find?_cons_of_pos _ (by simpa using hx),
              List.find?_cons_of_pos _ (by simpa using hx)]
          · rw [List.find?_cons_of_neg _ (by simpa using hx),
              List.find?_cons_of_neg _ (by simpa using hx)]
            exact ih he

theorem filter_dest_eq_single {row : List Edge} {i v : ℕ} {e : Edge}
    (he : row[i]? = some e) (hd : e.destination_id = v)
    (huniq : ∀ (j : ℕ) (e' : Edge), row[j]? = some e' →
      e'.destination_id = v → j = i) :
    row.filter (fun x => x.destination_id = v) = [e] := by
  induction row generalizing i with
  | nil => simp at he
  | cons x xs ih =>
      cases i with
      | zero =>
          rw [List.getElem?_cons_zero] at he
          cases he
          rw [List.filter_cons_of_pos (by simpa using hd)]
          have hxs : xs.filter (fun x => decide (x.destination_id = v)) = [] := by
            rw [List.filter_eq_nil_iff]
            intro a ha hpa
            obtain ⟨j, hj⟩ := List.mem_iff_getElem?.mp ha
            exact Nat.succ_ne_zero j
              (huniq (j + 1) a (by simpa using hj) (of_decide_eq_true hpa))
          rw [hxs]
      | succ j =>
          have hx : x.destination_id ≠ v := by
            intro hxv
            exact Nat.succ_ne_zero j ((huniq 0 x (by simp) hxv).symm)
          rw [List.getElem?_cons_succ] at he
          rw [List.filter_cons_of_neg (by simpa using hx)]
          exact ih he (fun j' e' hj' hd' => by
            have := huniq (j' + 1) e' (by simpa using hj') hd'
            omega)

theorem modify_append_length {l : List Edge} (x : Edge) (w : ℝ) :
    List.modify (fun e => { e with weight := w }) l.length (l ++ [x]) =
      l ++ [{ x with weight := w }] := by
  induction l with
  | nil => rfl
  | cons y ys ih => simpa using ih

/-! ### Extraction from the well-formedness record -/

theorem WFb_parts {g : ArbitrageGraph} (h : WFb g = true) :
    wfSizes g = true ∧ wfEdges g = true ∧ wfMapCorrect g = true ∧
    wfMapComplete g = true ∧ wfCurrencyIds g = true ∧ wfQueue g = true ∧
    wfSmall g = true := by
  unfold WFb at h
  simp only [Bool.and_eq_true] at h
  exact ⟨h.1.1.1.1.1.1, h.1.1.1.1.1.2, h.1.1.1.1.2, h.1.1.1.2, h.1.1.2,
    h.1.2, h.2⟩

theorem wfSizes_adj {g : ArbitrageGraph} (h : wfSizes g = true) :
    g.adjacency_list.length = g.num_vertices := by
  unfold wfSizes at h
  simp only [Bool.and_eq_true, decide_eq_true_eq] at h
  exact h.1.1.1.1

theorem wfCurrencyIds_spec {g : ArbitrageGraph} (h : wfCurrencyIds g = true)
    {s : String} {a : ℕ} (ha : alookup g.currency_to_id s = some a) :
    a < g.num_vertices := by
  unfold wfCurrencyIds at h
  rw [List.all_eq_true] at h
  have := h (s, a) (alookup_mem ha)
  simpa using this

theorem wfSmall_spec {g : ArbitrageGraph} (h : wfSmall g = true) :
    g.num_vertices ≤ 2 ^ 32 := by
  unfold wfSmall at h
  simpa using h

theorem wfMapCorrect_spec {g : ArbitrageGraph} (h : wfMapCorrect g = true)
    {a b i : ℕ} (ha : a < g.num_vertices) (hb : b < g.num_vertices)
    (hl : alookup g.edge_index_map (create_edge_key a b) = some i) :
    ∃ e, (g.adjacency_list.getD a [])[i]? = some e ∧ e.destination_id = b := by
  unfold wfMapCorrect at h
  rw [List.all_eq_true] at h
  have h1 := h a (List.mem_range.mpr ha)
  rw [List.all_eq_true] at h1
  have h2 := h1 b (List.mem_range.mpr hb)
  simp only [hl] at h2
  cases he : (g.adjacency_list.getD a [])[i]? with
  | none => rw [he] at h2; cases h2
  | some e =>
      rw [he] at h2
      exact ⟨e, rfl, of_decide_eq_true h2⟩

theorem wfMapComplete_spec {g : ArbitrageGraph} (h : wfMapComplete g = true)
    {u i : ℕ} {e : Edge} (hu : u < g.num_vertices)
    (he : (g.adjacency_list.getD u [])[i]? = some e) :
    alookup g.edge_index_map (create_edge_key u e.destination_id) = some i := by
  unfold wfMapComplete at h
  rw [List.all_eq_true] at h
  have h1 := h u (List.mem_range.mpr hu)
  rw [List.all_eq_true] at h1
  have hmem : (i, e) ∈ (g.adjacency_list.getD u []).enum :=
    List.mk_mem_enum_iff_getElem?.mpr he
  have := h1 (i, e) hmem
  simpa using this

/-! ### Parsing a well-formed `BASE-QUOTE` symbol -/

theorem findIdx?_no_hit_append {p : Char → Bool} {l : List Char}
    (h : ∀ c ∈ l, p c = false) (c : Char) (r : List Char)
    (hc : p c = true) :
    List.findIdx? p (l ++ c :: r) = some l.length := by
  induction l with
  | nil => simp [hc]
  | cons x xs ih =>
      have hx : p x = false := h x (by simp)
      rw [List.cons_append, List.findIdx?_cons, hx]
      have hih := ih (fun d hd => h d (List.mem_cons_of_mem x hd))
      simp [List.findIdx?_start_succ, hih]

theorem splitSymbol_append (A B : String) (hA : ('-' : Char) ∉ A.data) :
    splitSymbol (A ++ "-" ++ B) = some (A, B) := by
  unfold splitSymbol
  have hdata : (A ++ "-" ++ B).data = A.data ++ '-' :: B.data := by
    simp [String.data_append]
  rw [hdata]
  have hfind : List.findIdx? (fun c => decide (c = '-'))
      (A.data ++ '-' :: B.data) = some A.data.length :=
    findIdx?_no_hit_append
      (fun c hc => by
        simp only [decide_eq_false_iff_not]
        intro hcd
        exact hA (hcd ▸ hc))
      '-' B.data (by simp)
  rw [hfind]
  show some (⟨(A.data ++ '-' :: B.data).take A.data.length⟩,
    (⟨(A.data ++ '-' :: B.data).drop (A.data.length + 1)⟩ : String)) = some (A, B)
  have htake : (A.data ++ '-' :: B.data).take A.data.length = A.data :=
    List.take_left A.data _
  have hassoc : A.data ++ '-' :: B.data = (A.data ++ ['-']) ++ B.data := by
    simp
  have hdrop : (A.data ++ '-' :: B.data).drop (A.data.length + 1) = B.data := by
    rw [hassoc]
    exact List.drop_left' (by simp)
  rw [htake, hdrop]

/-! ### The two edge writes of a successful update -/

theorem upsert_edgeWeight_hit (g : ArbitrageGraph) (src dst : ℕ) (w : ℝ)
    (hlen : src < g.adjacency_list.length)
    (hcorrect : ∀ i, alookup g.edge_index_map (create_edge_key src dst) = some i →
        ∃ e, (g.adjacency_list.getD src [])[i]? = some e ∧
          e.destination_id = dst)
    (hcomplete : ∀ (j : ℕ) (e : Edge), (g.adjacency_list.getD src [])[j]? = some e →
        e.destination_id = dst →
        alookup g.edge_index_map (create_edge_key src dst) = some j) :
    edgeWeight (upsertEdge g src dst w) src dst = some w := by
  unfold upsertEdge edgeWeight
  cases hm : alookup g.edge_index_map (create_edge_key src dst) with
  | none =>
      simp only [hm]
      rw [getD_set_self _ _ _ _ hlen]
      have habs : (g.adjacency_list.getD src []).find?
          (fun e => e.destination_id = dst) = none := by
        apply find?_dest_eq_none
        intro j e hj hd
        have := hcomplete j e hj hd
        rw [hm] at this
        cases this
      rw [List.find?_append, habs]
      simp
  | some i =>
      obtain ⟨e, he, hd⟩ := hcorrect i hm
      simp only [hm]
      rw [getD_set_self _ _ _ _ hlen]
      have huniq : ∀ (j : ℕ) (e' : Edge),
          (g.adjacency_list.getD src [])[j]? = some e' →
          e'.destination_id = dst → j = i := by
        intro j e' hj hd'
        have := hcomplete j e' hj hd'
        rw [hm] at this
        cases this
        rfl
      rw [find?_dest_modify_unique w he hd huniq]
      rfl

theorem upsert_edgeWeight_other_dst (g : ArbitrageGraph) (src dst v : ℕ)
    (w : ℝ) (hv : v ≠ dst)
    (hcorrect : ∀ i, alookup g.edge_index_map (create_edge_key src dst) = some i →
        ∃ e, (g.adjacency_list.getD src [])[i]? = some e ∧
          e.destination_id = dst) :
    edgeWeight (upsertEdge g src dst w) src v = edgeWeight g src v := by
  by_cases hlen : src < g.adjacency_list.length
  · unfold upsertEdge edgeWeight
    cases hm : alookup g.edge_index_map (create_edge_key src dst) with
    | none =>
        simp only [hm]
        rw [getD_set_self _ _ _ _ hlen]
        rw [List.find?_append]
        have hone : List.find? (fun e => e.destination_id = v)
            [(⟨dst, w⟩ : Edge)] = none := by
          simp [Ne.symm hv]
        rw [hone]
        simp
    | some i =>
        obtain ⟨e, he, hd⟩ := hcorrect i hm
        simp only [hm]
        rw [getD_set_self _ _ _ _ hlen]
        rw [find?_dest_modify_other w he (by rw [hd]; exact Ne.symm hv)]
  · have hset : ∀ row, g.adjacency_list.set src row = g.adjacency_list :=
      fun row => List.set_eq_of_length_le (by omega)
    unfold upsertEdge edgeWeight
    cases hm : alookup g.edge_index_map (create_edge_key src dst) <;>
      simp [hm, hset]

theorem alookup_cons_self {α β : Type} [DecidableEq α] (l : List (α × β))
    (k : α) (v : β) : alookup ((k, v) :: l) k = some v := by
  simp [alookup]

/-- C3: after `update_price("A-B", p)` with `A ≠ B` registered and
`p > 0`, the edge `A→B` stores `-log p`, the edge `B→A` stores
`+log p`, no other edge of the graph is modified, and both endpoint
ids are appended (base first) to the dirty queue. -/
theorem update_price_pair_weights (g : ArbitrageGraph) (A B : String)
    (p : ℝ) (a b : ℕ)
    (hWF : WFb g = true)
    (hA : ('-' : Char) ∉ A.data)
    (ha : alookup g.currency_to_id A = some a)
    (hb : alookup g.currency_to_id B = some b)
    (hab : a ≠ b) (hp : 0 < p) :
    (update_price g (A ++ "-" ++ B) p).1 = .ok ∧
    edgeWeight (update_price g (A ++ "-" ++ B) p).2 a b = some (-Real.log p) ∧
    edgeWeight (update_price g (A ++ "-" ++ B) p).2 b a = some (Real.log p) ∧
    (∀ u v : ℕ, ¬(u = a ∧ v = b) → ¬(u = b ∧ v = a) →
      edgeWeight (update_price g (A ++ "-" ++ B) p).2 u v = edgeWeight g u v) ∧
    (update_price g (A ++ "-" ++ B) p).2.dirty_vertices =
      g.dirty_vertices ++ [a, b] := by
  obtain ⟨hsz, hed, hcor, hcom, hcur, hqv, hsm⟩ := WFb_parts hWF
  have hN := wfSizes_adj hsz
  have haN : a < g.num_vertices := wfCurrencyIds_spec hcur ha
  have hbN : b < g.num_vertices := wfCurrencyIds_spec hcur hb
  have ha32 : a < 2 ^ 32 := lt_of_lt_of_le haN (wfSmall_spec hsm)
  have hb32 : b < 2 ^ 32 := lt_of_lt_of_le hbN (wfSmall_spec hsm)
  have hkey : create_edge_key b a ≠ create_edge_key a b := by
    intro hk
    exact hab (create_edge_key_inj hb32 ha32 ha32 hb32 hk).1.symm
  have halen : a < g.adjacency_list.length := by omega
  have hblen : b < g.adjacency_list.length := by omega
  rw [update_price_eq_ok g _ p A B a b (splitSymbol_append A B hA) ha hb]
  have hcorrect_ab : ∀ i,
      alookup g.edge_index_map (create_edge_key a b) = some i →
      ∃ e, (g.adjacency_list.getD a [])[i]? = some e ∧
        e.destination_id = b := fun i hi => wfMapCorrect_spec hcor haN hbN hi
  have hcomplete_ab : ∀ (j : ℕ) (e : Edge),
      (g.adjacency_list.getD a [])[j]? = some e → e.destination_id = b →
      alookup g.edge_index_map (create_edge_key a b) = some j := by
    intro j e hj hd
    have := wfMapComplete_spec hcom haN hj
    rwa [hd] at this
  have hrowb : (upsertEdge g a b (-Real.log p)).adjacency_list.getD b [] =
      g.adjacency_list.getD b [] :=
    upsertEdge_row_other a b (-Real.log p) (Ne.symm hab)
  have hmapb : alookup (upsertEdge g a b
      (-Real.log p)).edge_index_map (create_edge_key b a) =
      alookup g.edge_index_map (create_edge_key b a) :=
    upsertEdge_map_other a b (-Real.log p) hkey
  have hcorrect_ba : ∀ i,
      alookup (upsertEdge g a b (-Real.log p)).edge_index_map
        (create_edge_key b a) = some i →
      ∃ e, ((upsertEdge g a b (-Real.log p)).adjacency_list.getD b [])[i]? =
          some e ∧ e.destination_id = a := by
    intro i hi
    rw [hmapb] at hi
    rw [hrowb]
    exact wfMapCorrect_spec hcor hbN haN hi
  have hcomplete_ba : ∀ (j : ℕ) (e : Edge),
      ((upsertEdge g a b (-Real.log p)).adjacency_list.getD b [])[j]? =
        some e → e.destination_id = a →
      alookup (upsertEdge g a b (-Real.log p)).edge_index_map
        (create_edge_key b a) = some j := by
    intro j e hj hd
    rw [hrowb] at hj
    rw [hmapb]
    have := wfMapComplete_spec hcom hbN hj
    rwa [hd] at this
  have hlog : -Real.log (1 / p) = Real.log p := by
    rw [one_div, Real.log_inv, neg_neg]
  refine ⟨rfl, ?_, ?_, ?_, ?_⟩
  · show edgeWeight (upsertEdge (upsertEdge g a b (-Real.log p)) b a
      (-Real.log (1 / p))) a b = some (-Real.log p)
    rw [edgeWeight_congr_row b (upsertEdge_row_other b a (-Real.log (1 / p)) hab)]
    exact upsert_edgeWeight_hit g a b (-Real.log p) halen hcorrect_ab
      hcomplete_ab
  · show edgeWeight (upsertEdge (upsertEdge g a b (-Real.log p)) b a
      (-Real.log (1 / p))) b a = some (Real.log p)
    have hres := upsert_edgeWeight_hit (upsertEdge g a b (-Real.log p)) b a
      (-Real.log (1 / p))
      (by rw [upsertEdge_adj_length]; exact hblen) hcorrect_ba hcomplete_ba
    exact hres.trans (congrArg some hlog)
  · intro u v hu1 hu2
    show edgeWeight (upsertEdge (upsertEdge g a b (-Real.log p)) b a
      (-Real.log (1 / p))) u v = edgeWeight g u v
    by_cases hua : u = a
    · subst hua
      have hvb : v ≠ b := fun hv => hu1 ⟨rfl, hv⟩
      rw [edgeWeight_congr_row v
        (upsertEdge_row_other b u (-Real.log (1 / p)) hab)]
      exact upsert_edgeWeight_other_dst g u b v (-Real.log p) hvb hcorrect_ab
    · by_cases hub : u = b
      · subst hub
        have hva : v ≠ a := fun hv => hu2 ⟨rfl, hv⟩
        rw [upsert_edgeWeight_other_dst (upsertEdge g a u (-Real.log p)) u a v
          (-Real.log (1 / p)) hva hcorrect_ba]
        exact edgeWeight_congr_row v hrowb
      · rw [edgeWeight_congr_row v
          (upsertEdge_row_other b a (-Real.log (1 / p)) hub)]
        exact edgeWeight_congr_row v (upsertEdge_row_other a b (-Real.log p) hua)
  · show ((upsertEdge (upsertEdge g a b (-Real.log p)) b a
      (-Real.log (1 / p))).dirty_vertices ++ [a, b]) = g.dirty_vertices ++ [a, b]
    rw [upsertEdge_dirty, upsertEdge_dirty]

/-- C3 witness: registry `["A-B"]`, update `"A-B"` at price `2`. -/
theorem update_price_pair_weights_witness :
    WFb (mkArbitrageGraph ["A-B"]) = true ∧
    (('-' : Char) ∉ "A".data) ∧
    alookup (mkArbitrageGraph ["A-B"]).currency_to_id "A" = some 0 ∧
    alookup (mkArbitrageGraph ["A-B"]).currency_to_id "B" = some 1 ∧
    (0 : ℕ) ≠ 1 ∧ (0 : ℝ) < 2 ∧
    ((update_price (mkArbitrageGraph ["A-B"]) ("A" ++ "-" ++ "B") 2).1 = .ok ∧
     edgeWeight (update_price (mkArbitrageGraph ["A-B"])
       ("A" ++ "-" ++ "B") 2).2 0 1 = some (-Real.log 2) ∧
     edgeWeight (update_price (mkArbitrageGraph ["A-B"])
       ("A" ++ "-" ++ "B") 2).2 1 0 = some (Real.log 2) ∧
     (∀ u v : ℕ, ¬(u = 0 ∧ v = 1) → ¬(u = 1 ∧ v = 0) →
       edgeWeight (update_price (mkArbitrageGraph ["A-B"])
         ("A" ++ "-" ++ "B") 2).2 u v =
       edgeWeight (mkArbitrageGraph ["A-B"]) u v) ∧
     (update_price (mkArbitrageGraph ["A-B"])
       ("A" ++ "-" ++ "B") 2).2.dirty_vertices =
       (mkArbitrageGraph ["A-B"]).dirty_vertices ++ [0, 1]) :=
  ⟨by decide, by decide, rfl, rfl, by decide, by norm_num,
   update_price_pair_weights (mkArbitrageGraph ["A-B"]) "A" "B" 2 0 1
     (by decide) (by decide) rfl rfl (by decide) (by norm_num)⟩

/-- C10: updating a self-pair `"B-B"` writes the forward weight
`-log p` and then, because the reverse edge key coincides with the
forward key, overwrites it in place with the reverse weight
`-log(1/p) = +log p`; the row of `B` ends up with exactly one self-loop
edge of weight `+log p`, and `B` is enqueued twice. -/
theorem update_price_self_pair (g : ArbitrageGraph) (B : String) (p : ℝ)
    (b : ℕ)
    (hWF : WFb g = true)
    (hB : ('-' : Char) ∉ B.data)
    (hb : alookup g.currency_to_id B = some b)
    (hp : 0 < p) :
    (update_price g (B ++ "-" ++ B) p).1 = .ok ∧
    ((update_price g (B ++ "-" ++ B) p).2.adjacency_list.getD b []).filter
      (fun e => e.destination_id = b) = [⟨b, Real.log p⟩] ∧
    (update_price g (B ++ "-" ++ B) p).2.dirty_vertices =
      g.dirty_vertices ++ [b, b] := by
  obtain ⟨hsz, hed, hcor, hcom, hcur, hqv, hsm⟩ := WFb_parts hWF
  have hN := wfSizes_adj hsz
  have hbN : b < g.num_vertices := wfCurrencyIds_spec hcur hb
  have hblen : b < g.adjacency_list.length := by omega
  have hlog : -Real.log (1 / p) = Real.log p := by
    rw [one_div, Real.log_inv, neg_neg]
  rw [update_price_eq_ok g _ p B B b b (splitSymbol_append B B hB) hb hb]
  refine ⟨rfl, ?_, ?_⟩
  · show ((upsertEdge (upsertEdge g b b (-Real.log p)) b b
        (-Real.log (1 / p))).adjacency_list.getD b []).filter
      (fun e => e.destination_id = b) = [⟨b, Real.log p⟩]
    cases hm : alookup g.edge_index_map (create_edge_key b b) with
    | none =>
        have habs : ∀ (j : ℕ) (e : Edge),
            (g.adjacency_list.getD b [])[j]? = some e →
            e.destination_id ≠ b := by
          intro j e hj hd
          have := wfMapComplete_spec hcom hbN hj
          rw [hd, hm] at this
          cases this
        have hg1row : (upsertEdge g b b (-Real.log p)).adjacency_list.getD
            b [] = g.adjacency_list.getD b [] ++ [⟨b, -Real.log p⟩] := by
          unfold upsertEdge
          simp only [hm]
          exact getD_set_self _ _ _ _ hblen
        have hg1map : (upsertEdge g b b
            (-Real.log p)).edge_index_map =
            (create_edge_key b b, (g.adjacency_list.getD b []).length) ::
              g.edge_index_map := by
          unfold upsertEdge
          simp [hm]
        have hstep : ∀ g1 : ArbitrageGraph,
            g1.edge_index_map = (create_edge_key b b,
              (g.adjacency_list.getD b []).length) :: g.edge_index_map →
            g1.adjacency_list.getD b [] =
              g.adjacency_list.getD b [] ++ [⟨b, -Real.log p⟩] →
            b < g1.adjacency_list.length →
            (upsertEdge g1 b b (-Real.log (1 / p))).adjacency_list.getD b [] =
              g.adjacency_list.getD b [] ++ [⟨b, -Real.log (1 / p)⟩] := by
          intro g1 hmap hrow hlen2
          unfold upsertEdge
          simp only [hmap, alookup_cons_self]
          rw [getD_set_self _ _ _ _ hlen2, hrow, modify_append_length]
        have hg2row := hstep (upsertEdge g b b (-Real.log p)) hg1map hg1row
          (by rw [upsertEdge_adj_length]; exact hblen)
        rw [hg2row, List.filter_append]
        have hnil : (g.adjacency_list.getD b []).filter
            (fun e => e.destination_id = b) = [] := by
          rw [List.filter_eq_nil_iff]
          intro e he hpe
          obtain ⟨j, hj⟩ := List.mem_iff_getElem?.mp he
          exact habs j e hj (of_decide_eq_true hpe)
        rw [hnil, hlog]
        simp
    | some i =>
        obtain ⟨e, he, hd⟩ := wfMapCorrect_spec hcor hbN hbN hm
        have huniq : ∀ (j : ℕ) (e' : Edge),
            (g.adjacency_list.getD b [])[j]? = some e' →
            e'.destination_id = b → j = i := by
          intro j e' hj hd'
          have := wfMapComplete_spec hcom hbN hj
          rw [hd', hm] at this
          cases this
          rfl
        have hg1row : (upsertEdge g b b (-Real.log p)).adjacency_list.getD
            b [] = List.modify (fun e => { e with weight := -Real.log p }) i
              (g.adjacency_list.getD b []) := by
          unfold upsertEdge
          simp only [hm]
          exact getD_set_self _ _ _ _ hblen
        have hg1map : (upsertEdge g b b (-Real.log p)).edge_index_map =
            g.edge_index_map := by
          unfold upsertEdge
          simp [hm]
        have hstep : ∀ g1 : ArbitrageGraph,
            g1.edge_index_map = g.edge_index_map →
            g1.adjacency_list.getD b [] =
              List.modify (fun e => { e with weight := -Real.log p }) i
                (g.adjacency_list.getD b []) →
            b < g1.adjacency_list.length →
            (upsertEdge g1 b b (-Real.log (1 / p))).adjacency_list.getD b [] =
            List.modify (fun e => { e with weight := -Real.log (1 / p) }) i
              (List.modify (fun e => { e with weight := -Real.log p }) i
                (g.adjacency_list.getD b [])) := by
          intro g1 hmap hrow hlen2
          unfold upsertEdge
          simp only [hmap, hm]
          rw [getD_set_self _ _ _ _ hlen2, hrow]
        have hg2row := hstep (upsertEdge g b b (-Real.log p)) hg1map hg1row
          (by rw [upsertEdge_adj_length]; exact hblen)
        rw [hg2row]
        have he2 : (List.modify (fun e => { e with weight := -Real.log (1 / p) })
            i (List.modify (fun e => { e with weight := -Real.log p }) i
              (g.adjacency_list.getD b [])))[i]? =
            some ⟨b, -Real.log (1 / p)⟩ := by
          rw [List.getElem?_modify_eq, List.getElem?_modify_eq, he]
          simp [hd]
        have huniq2 : ∀ (j : ℕ) (e' : Edge),
            (List.modify (fun e => { e with weight := -Real.log (1 / p) })
              i (List.modify (fun e => { e with weight := -Real.log p }) i
                (g.adjacency_list.getD b [])))[j]? = some e' →
            e'.destination_id = b → j = i := by
          intro j e' hj hd'
          by_cases hij : j = i
          · exact hij
          · rw [List.getElem?_modify_ne _ _ (fun hh => hij hh.symm),
              List.getElem?_modify_ne _ _ (fun hh => hij hh.symm)] at hj
            exact huniq j e' hj hd'
        rw [filter_dest_eq_single he2 rfl huniq2, hlog]
  · show ((upsertEdge (upsertEdge g b b (-Real.log p)) b b
      (-Real.log (1 / p))).dirty_vertices ++ [b, b]) =
      g.dirty_vertices ++ [b, b]
    rw [upsertEdge_dirty, upsertEdge_dirty]

/-- C10 witness: registry `["A-B"]`, self-pair `"B-B"` at price `2`. -/
theorem update_price_self_pair_witness :
    WFb (mkArbitrageGraph ["A-B"]) = true ∧
    (('-' : Char) ∉ "B".data) ∧
    alookup (mkArbitrageGraph ["A-B"]).currency_to_id "B" = some 1 ∧
    (0 : ℝ) < 2 ∧
    ((update_price (mkArbitrageGraph ["A-B"]) ("B" ++ "-" ++ "B") 2).1 = .ok ∧
     ((update_price (mkArbitrageGraph ["A-B"])
        ("B" ++ "-" ++ "B") 2).2.adjacency_list.getD 1 []).filter
       (fun e => e.destination_id = 1) = [⟨1, Real.log 2⟩] ∧
     (update_price (mkArbitrageGraph ["A-B"])
       ("B" ++ "-" ++ "B") 2).2.dirty_vertices =
       (mkArbitrageGraph ["A-B"]).dirty_vertices ++ [1, 1]) :=
  ⟨by decide, by decide, rfl, by norm_num,
   update_price_self_pair (mkArbitrageGraph ["A-B"]) "B" 2 1
     (by decide) (by decide) rfl (by norm_num)⟩

/-! ### Structure of reconstructed cycles -/

/-- A successful `collectCycle` run returns the accumulator extended at
the front: the collected path always ends in `current :: acc`. -/
theorem collectCycle_ok_shape {pred : List ℤ} {c0 : ℤ} :
    ∀ (fuel : ℕ) (cur : ℤ) (acc p : List ℤ),
      collectCycle pred c0 fuel cur acc = .ok p →
      ∃ pre, p = pre ++ cur :: acc := by
  intro fuel
  induction fuel with
  | zero =>
      intro cur acc p h
      exact absurd h (by simp [collectCycle])
  | succ n ih =>
      intro cur acc p h
      simp only [collectCycle] at h
      cases hv : vecAt pred cur with
      | error e => simp [hv] at h
      | ok next =>
          simp only [hv] at h
          by_cases hc : next = c0
          · rw [if_pos hc] at h
            injection h with h
            exact ⟨[], h.symm⟩
          · rw [if_neg hc] at h
            obtain ⟨pre, hp⟩ := ih next (cur :: acc) p h
            exact ⟨pre ++ [next], by rw [hp]; simp⟩

/-- `mapNames` preserves the length of the id list. -/
theorem mapNames_length {names : List String} :
    ∀ (l : List ℤ) (out : List String),
      mapNames names l = .ok out → out.length = l.length := by
  intro l
  induction l with
  | nil =>
      intro out h
      simp only [mapNames] at h
      injection h with h
      rw [← h]
      rfl
  | cons i rest ih =>
      intro out h
      simp only [mapNames] at h
      cases hv : vecAt names i with
      | error e => simp [hv] at h
      | ok nm =>
          simp only [hv] at h
          cases hr : mapNames names rest with
          | error e => simp [hr] at h
          | ok ns =>
              simp only [hr] at h
              injection h with h
              rw [← h]
              simp [ih ns hr]

/-- Entrywise description of a successful `mapNames` run. -/
theorem mapNames_getElem {names : List String} :
    ∀ (l : List ℤ) (out : List String), mapNames names l = .ok out →
      ∀ j : ℕ, out[j]? = (l[j]?).bind (fun i => (vecAt names i).toOption) := by
  intro l
  induction l with
  | nil =>
      intro out h j
      simp only [mapNames] at h
      injection h with h
      rw [← h]
      simp
  | cons i rest ih =>
      intro out h j
      simp only [mapNames] at h
      cases hv : vecAt names i with
      | error e => simp [hv] at h
      | ok nm =>
          simp only [hv] at h
          cases hr : mapNames names rest with
          | error e => simp [hr] at h
          | ok ns =>
              simp only [hr] at h
              injection h with h
              rw [← h]
              cases j with
              | zero => simp [hv, Except.toOption]
              | succ jj => simp [ih ns hr jj]

/-- A successfully reconstructed sequence has at least two entries and
its first entry equals its last (both map the cycle entry vertex). -/
theorem reconstruct_ok_closed {g : ArbitrageGraph} {v : ℕ} {cyc : List String}
    (h : reconstruct_cycle g v = .ok cyc) :
    2 ≤ cyc.length ∧ cyc.head? = cyc.getLast? := by
  unfold reconstruct_cycle at h
  cases hw : predWalk g.predecessor g.num_vertices ((v : ℤ)) with
  | error e => simp [hw] at h
  | ok cs =>
      simp only [hw] at h
      cases hc : collectCycle g.predecessor cs (g.num_vertices + 1) cs [] with
      | error e => simp [hc] at h
      | ok path =>
          simp only [hc] at h
          obtain ⟨pre, hp⟩ := collectCycle_ok_shape _ _ _ _ hc
          subst hp
          have hlen := mapNames_length _ _ h
          have hget := mapNames_getElem _ _ h
          constructor
          · rw [hlen]
            simp only [List.length_cons, List.length_append, List.length_cons,
              List.length_nil]
            omega
          · rw [List.head?_eq_getElem?, List.getLast?_eq_getElem?]
            rw [hget 0, hget (cyc.length - 1), hlen]
            have h0 : (cs :: (pre ++ [cs]))[0]? = some cs := by simp
            have hL : (cs :: (pre ++ [cs]))[(cs :: (pre ++ [cs])).length - 1]? =
                some cs := by
              have hidx : (cs :: (pre ++ [cs])).length - 1 = pre.length + 1 := by
                simp
              rw [hidx]
              simp only [List.getElem?_cons_succ]
              rw [List.getElem?_append_right (le_refl pre.length)]
              simp
            rw [h0, hL]

/-- When the SPFA loop reports a cycle, that cycle came out of
`reconstruct_cycle` run on the returned state. -/
theorem spfaLoop_ok_cycle :
    ∀ (fuel : ℕ) (g g2 : ArbitrageGraph) (cyc : List String),
      spfaLoop fuel g = some (.ok (some cyc), g2) →
      ∃ v, reconstruct_cycle g2 v = .ok cyc := by
  intro fuel
  induction fuel with
  | zero =>
      intro g g2 cyc h
      simp [spfaLoop] at h
  | succ n ih =>
      intro g g2 cyc h
      simp only [spfaLoop] at h
      cases hd : g.dirty_vertices with
      | nil =>
          simp only [hd] at h
          simp at h
      | cons u rest =>
          simp only [hd] at h
          cases hr : relaxLoop u (g.adjacency_list.getD u [])
              { g with dirty_vertices := rest } with
          | inl g3 =>
              simp only [hr] at h
              exact ih _ _ _ h
          | inr d =>
              obtain ⟨v, g3⟩ := d
              simp only [hr] at h
              cases hrec : reconstruct_cycle g3 v with
              | error e =>
                  simp only [hrec, Except.map] at h
                  simp at h
              | ok c =>
                  simp only [hrec, Except.map] at h
                  simp only [Option.some.injEq, Prod.mk.injEq,
                    Except.ok.injEq] at h
                  obtain ⟨hc, hg⟩ := h
                  refine ⟨v, ?_⟩
                  rw [← hg, hrec]
                  exact congrArg Except.ok hc

/-- C1.  Amended: a sequence returned by `find_arbitrage_cycle` is
closed (at least two entries, first = last), but its weight sum under
the weights stored at the moment of return need not be negative (see
the counterexample theorem). -/
theorem returned_cycle_is_closed (g g2 : ArbitrageGraph) (cyc : List String)
    (h : find_arbitrage_cycle g = (.ok (some cyc), g2)) :
    2 ≤ cyc.length ∧ cyc.head? = cyc.getLast? := by
  unfold find_arbitrage_cycle at h
  cases hs : spfaLoop (fuelBound g) g with
  | none =>
      rw [hs] at h
      simp at h
  | some r =>
      rw [hs] at h
      simp only [Option.getD_some] at h
      obtain ⟨v, hrec⟩ := spfaLoop_ok_cycle _ _ _ _ (by rw [hs, h])
      exact reconstruct_ok_closed hrec

/-- C1 witness: the detection in script S2 returns the closed sequence
`["A", "B", "A"]`. -/
theorem returned_cycle_is_closed_witness :
    find_arbitrage_cycle S2g7 =
      (.ok (some ["A", "B", "A"]),
       st3 [[⟨1, -2⟩, ⟨2, -2⟩], [⟨0, 2⟩, ⟨2, -1⟩], [⟨1, 1⟩, ⟨0, 2⟩]]
       [(2 * 2 ^ 32, 1), (2, 1), (2 * 2 ^ 32 + 1, 0), (2 ^ 32 + 2, 1), (2 ^ 32, 0), (1, 0)]
       [some (-2), some (-4), some (-4)] [1, 0, 0] [2, 4, 2] [1, 1]) ∧
    (2 ≤ (["A", "B", "A"] : List String).length ∧
     (["A", "B", "A"] : List String).head? =
       (["A", "B", "A"] : List String).getLast?) :=
  ⟨S2f3_eq, returned_cycle_is_closed S2g7 _ _ S2f3_eq⟩

/-- C1 counterexample: the third query of script S2 returns the cycle
`["A", "B", "A"]`, yet the weights stored at the moment of return sum
to `0` along it — the claimed strict negativity fails (the detection
fired on update counts left over from the earlier, genuinely negative,
configuration). -/
theorem returned_cycle_weight_zero :
    (find_arbitrage_cycle S2g7).1 = .ok (some ["A", "B", "A"]) ∧
    namesCycleWeight (find_arbitrage_cycle S2g7).2 ["A", "B", "A"] = some 0 ∧
    ¬ ((0 : ℝ) < 0) := by
  refine ⟨by rw [S2f3_eq], ?_, by norm_num⟩
  rw [S2f3_eq]
  have h1 : nameEdgeWeight
      (st3 [[⟨1, -2⟩, ⟨2, -2⟩], [⟨0, 2⟩, ⟨2, -1⟩], [⟨1, 1⟩, ⟨0, 2⟩]]
        [(2 * 2 ^ 32, 1), (2, 1), (2 * 2 ^ 32 + 1, 0), (2 ^ 32 + 2, 1), (2 ^ 32, 0), (1, 0)]
        [some (-2), some (-4), some (-4)] [1, 0, 0] [2, 4, 2] [1, 1])
      "A" "B" = some (-2) := rfl
  have h2 : nameEdgeWeight
      (st3 [[⟨1, -2⟩, ⟨2, -2⟩], [⟨0, 2⟩, ⟨2, -1⟩], [⟨1, 1⟩, ⟨0, 2⟩]]
        [(2 * 2 ^ 32, 1), (2, 1), (2 * 2 ^ 32 + 1, 0), (2 ^ 32 + 2, 1), (2 ^ 32, 0), (1, 0)]
        [some (-2), some (-4), some (-4)] [1, 0, 0] [2, 4, 2] [1, 1])
      "B" "A" = some 2 := rfl
  simp only [namesCycleWeight, List.tail_cons, List.zip_cons_cons,
    List.zip_nil_right, List.foldl_cons, List.foldl_nil, h1, h2]
  norm_num

/-! ### Raised exceptions during reconstruction -/

/-- C8.  Amended: `find_arbitrage_cycle` can raise.  When the
predecessor walk lands on the `-1` sentinel (or steps out of bounds),
`reconstruct_cycle` — and with it the whole call — terminates with the
uncaught `std::out_of_range` exception instead of returning "no
cycle". -/
theorem reconstruct_raises_on_sentinel (g : ArbitrageGraph) (v : ℕ)
    (h : predWalk g.predecessor g.num_vertices ((v : ℤ)) =
        .error "std::out_of_range" ∨
      ∃ cs : ℤ, predWalk g.predecessor g.num_vertices ((v : ℤ)) = .ok cs ∧
        cs < 0) :
    reconstruct_cycle g v = .error "std::out_of_range" := by
  unfold reconstruct_cycle
  rcases h with h | ⟨cs, h, hneg⟩
  · simp only [h]
  · simp only [h]
    have hv : vecAt g.predecessor cs = .error "std::out_of_range" := by
      unfold vecAt
      cases hg : g.predecessor[cs.toNat]? with
      | none => simp only [hg]
      | some x =>
          simp only [hg]
          rw [if_neg (not_le.mpr hneg)]
    simp only [collectCycle, hv]

/-- C8 witness: the post-detection state of script S1 has
`predecessor = [-1, 0]`; walking two steps from vertex `1` reaches the
sentinel `-1`, and reconstruction from vertex `1` raises. -/
theorem reconstruct_raises_on_sentinel_witness :
    (predWalk (st2 [[⟨1, -3⟩], [⟨0, 3⟩]] [(2 ^ 32, 0), (1, 0)]
        [some 0, some (-3)] [-1, 0] [0, 2] [1, 1]).predecessor
      (st2 [[⟨1, -3⟩], [⟨0, 3⟩]] [(2 ^ 32, 0), (1, 0)]
        [some 0, some (-3)] [-1, 0] [0, 2] [1, 1]).num_vertices
      (((1 : ℕ) : ℤ)) = .ok (-1) ∧ ((-1 : ℤ) < 0)) ∧
    reconstruct_cycle (st2 [[⟨1, -3⟩], [⟨0, 3⟩]] [(2 ^ 32, 0), (1, 0)]
        [some 0, some (-3)] [-1, 0] [0, 2] [1, 1]) 1 =
      .error "std::out_of_range" := by
  have hpw : predWalk ([-1, 0] : List ℤ) 2 (((1 : ℕ) : ℤ)) = .ok (-1) := rfl
  exact ⟨⟨hpw, by decide⟩,
    reconstruct_raises_on_sentinel _ 1 (Or.inr ⟨-1, hpw, by decide⟩)⟩

/-- C8 counterexample: the second query of script S1 ends in the
`std::out_of_range` exception escaping the call (there is no handler in
`find_arbitrage_cycle`), not in the claimed "no cycle" result. -/
theorem find_raises_out_of_range :
    (find_arbitrage_cycle S1g3).1 = .error "std::out_of_range" ∧
    (find_arbitrage_cycle S1g3).1 ≠ .ok none := by
  refine ⟨by rw [S1f2_eq], by rw [S1f2_eq]; simp⟩

/-! ### Absence of a negative cycle in the final S1 state -/

/-- An edge can only be stored in a row that exists. -/
theorem hasEdgeB_src_lt {g : ArbitrageGraph} {u v : ℕ}
    (h : hasEdgeB g u v = true) : u < g.adjacency_list.length := by
  by_contra hge
  rw [hasEdgeB, List.getD_eq_getElem?_getD,
    List.getElem?_eq_none (le_of_not_lt hge)] at h
  simp at h

/-- Every vertex of a cycle is the source of one of its edges. -/
theorem cycleEdges_mem_of_mem {c : List ℕ} {x : ℕ} (hx : x ∈ c) :
    ∃ y, (x, y) ∈ cycleEdges c := by
  obtain ⟨i, hi⟩ := List.getElem?_of_mem hx
  have hilen : i < c.length := by
    rcases List.getElem?_eq_some.mp hi with ⟨hh, -⟩
    exact hh
  have hrlen : i < (c.rotate 1).length := by
    rw [List.length_rotate]
    exact hilen
  refine ⟨(c.rotate 1).get ⟨i, hrlen⟩, List.mem_iff_getElem?.mpr ⟨i, ?_⟩⟩
  exact List.getElem?_zip_eq_some.mpr ⟨hi, List.getElem?_eq_getElem hrlen⟩

/-- The final S1 state (weights `A→B = -3`, `B→A = 3`) admits no
negative-weight cycle at all: its only simple cycles are the self-loops
(absent) and `0 → 1 → 0`, whose weight is `0`. -/
theorem no_neg_cycle_S1_state :
    ¬ HasNegCycleFrom0
      (st2 [[⟨1, -3⟩], [⟨0, 3⟩]] [(2 ^ 32, 0), (1, 0)]
        [some 0, some (-1)] [-1, 0] [0, 1] [0, 1]) := by
  rintro ⟨c, hcyc, -, hneg⟩
  rw [IsCycleB, Bool.and_eq_true, Bool.and_eq_true] at hcyc
  obtain ⟨⟨hne, hnodup⟩, hedges⟩ := hcyc
  rw [List.all_eq_true] at hedges
  have hnd : c.Nodup := of_decide_eq_true hnodup
  have hlt : ∀ x ∈ c, x < 2 := by
    intro x hx
    obtain ⟨y, hxy⟩ := cycleEdges_mem_of_mem hx
    have hsrc := hasEdgeB_src_lt (hedges _ hxy)
    simpa [st2] using hsrc
  rcases c with _ | ⟨a, _ | ⟨b, _ | ⟨z, t⟩⟩⟩
  · simp at hne
  · have ha : a < 2 := hlt a (by simp)
    have hE : cycleEdges [a] = [(a, a)] := by
      simp [cycleEdges, List.rotate_singleton]
    have he := hedges (a, a) (by rw [hE]; simp)
    interval_cases a
    · exact absurd he (by decide)
    · exact absurd he (by decide)
  · have ha : a < 2 := hlt a (by simp)
    have hb : b < 2 := hlt b (by simp)
    have hab : a ≠ b := by simpa using hnd
    interval_cases a <;> interval_cases b
    · exact absurd rfl hab
    · rw [show cycleWeight
          (st2 [[⟨1, -3⟩], [⟨0, 3⟩]] [(2 ^ 32, 0), (1, 0)]
            [some 0, some (-1)] [-1, 0] [0, 1] [0, 1]) [0, 1] =
          -3 + (3 + 0) from rfl] at hneg
      norm_num at hneg
    · rw [show cycleWeight
          (st2 [[⟨1, -3⟩], [⟨0, 3⟩]] [(2 ^ 32, 0), (1, 0)]
            [some 0, some (-1)] [-1, 0] [0, 1] [0, 1]) [1, 0] =
          3 + (-3 + 0) from rfl] at hneg
      norm_num at hneg
    · exact absurd rfl hab
  · have ha : a < 2 := hlt a (by simp)
    have hb : b < 2 := hlt b (by simp)
    have hz : z < 2 := hlt z (by simp)
    simp only [List.nodup_cons, List.mem_cons, not_or] at hnd
    obtain ⟨⟨hab, haz, -⟩, ⟨hbz, -⟩, -⟩ := hnd
    omega

/-- C2 counterexample: the final S1 state admits no negative cycle
(reachable or otherwise), yet the query on it does not return "no
cycle" — stale update counts from the earlier call push vertex `1`
over the detection threshold and the call ends in an exception. -/
theorem no_neg_cycle_yet_no_nullopt :
    ¬ HasNegCycleFrom0 S1g3 ∧ (find_arbitrage_cycle S1g3).1 ≠ .ok none := by
  constructor
  · rw [S1g3_eq]
    exact no_neg_cycle_S1_state
  · rw [S1f2_eq]
    simp

/-! ### Termination of the SPFA loop -/

/-- Rewriting one entry of a list shifts a mapped sum by the difference
of the images. -/
theorem sum_map_set (f : ℕ → ℕ) :
    ∀ (l : List ℕ) (v : ℕ), v < l.length → ∀ x : ℕ,
      ((l.set v x).map f).sum + f (l.getD v 0) = (l.map f).sum + f x := by
  intro l
  induction l with
  | nil =>
      intro v hv x
      simp at hv
  | cons a t ih =>
      intro v hv x
      cases v with
      | zero =>
          simp only [List.set_cons_zero, List.map_cons, List.sum_cons,
            List.getD_cons_zero]
          omega
      | succ w =>
          simp only [List.set_cons_succ, List.map_cons, List.sum_cons,
            List.getD_cons_succ]
          have := ih w (by simpa using hv) x
          omega

/-- A relaxation that does not fire detection keeps the loop measure
from growing: the dirty push is paid for by the update-count bump. -/
theorem mu_applyRelax {g : ArbitrageGraph} {u v : ℕ} {nd : ℝ}
    (hv : v < g.update_counts.length)
    (hc : g.update_counts.getD v 0 + 1 < g.num_vertices) :
    mu (applyRelax g u v nd) ≤ mu g := by
  have hs := sum_map_set (fun c => g.num_vertices - 1 - c) g.update_counts v hv
      (g.update_counts.getD v 0 + 1)
  simp only [mu, Pm, applyRelax, List.length_append, List.length_cons,
    List.length_nil]
  omega

/-- An inner relaxation pass that runs to completion preserves the
graph structure and does not increase the loop measure. -/
theorem relaxLoop_inl (u : ℕ) :
    ∀ (edges : List Edge) (g g2 : ArbitrageGraph),
      (edges.all fun e =>
        decide (e.destination_id < g.update_counts.length)) = true →
      relaxLoop u edges g = .inl g2 →
      g2.adjacency_list = g.adjacency_list ∧
      g2.num_vertices = g.num_vertices ∧
      g2.update_counts.length = g.update_counts.length ∧ mu g2 ≤ mu g := by
  intro edges
  induction edges with
  | nil =>
      intro g g2 hall h
      simp only [relaxLoop] at h
      injection h with h
      subst h
      exact ⟨rfl, rfl, rfl, le_refl _⟩
  | cons e rest ih =>
      intro g g2 hall h
      rw [List.all_cons, Bool.and_eq_true] at hall
      obtain ⟨hvb, hrest⟩ := hall
      have hv : e.destination_id < g.update_counts.length :=
        of_decide_eq_true hvb
      simp only [relaxLoop] at h
      have relaxCase :
          ¬ g.update_counts.getD e.destination_id 0 + 1 ≥ g.num_vertices →
          ∀ du : ℝ,
          relaxLoop u rest (applyRelax g u e.destination_id
            (du + e.weight)) = .inl g2 →
          g2.adjacency_list = g.adjacency_list ∧
          g2.num_vertices = g.num_vertices ∧
          g2.update_counts.length = g.update_counts.length ∧
          mu g2 ≤ mu g := by
        intro hge du hrec
        have hrest2 : (rest.all fun e2 =>
            decide (e2.destination_id <
              (applyRelax g u e.destination_id
                (du + e.weight)).update_counts.length)) = true := by
          simpa [applyRelax] using hrest
        obtain ⟨h1, h2, h3, h4⟩ :=
          ih (applyRelax g u e.destination_id (du + e.weight)) g2 hrest2 hrec
        refine ⟨h1, h2, ?_, ?_⟩
        · rw [h3]
          simp [applyRelax]
        · exact le_trans h4 (mu_applyRelax hv (lt_of_not_ge hge))
      cases hdu : g.distance.getD u none with
      | none =>
          simp only [hdu] at h
          exact ih g g2 hrest h
      | some du =>
          simp only [hdu] at h
          cases hdv : g.distance.getD e.destination_id none with
          | none =>
              simp only [hdv] at h
              by_cases hge :
                  g.update_counts.getD e.destination_id 0 + 1 ≥ g.num_vertices
              · rw [if_pos hge] at h
                simp at h
              · rw [if_neg hge] at h
                exact relaxCase hge du h
          | some dv =>
              simp only [hdv] at h
              by_cases hltw : du + e.weight < dv
              · rw [if_pos hltw] at h
                by_cases hge :
                    g.update_counts.getD e.destination_id 0 + 1 ≥
                      g.num_vertices
                · rw [if_pos hge] at h
                  simp at h
                · rw [if_neg hge] at h
                  exact relaxCase hge du h
              · rw [if_neg hltw] at h
                exact ih g g2 hrest h

/-- Given the structural hypothesis, the SPFA loop completes within any
fuel exceeding the loop measure. -/
theorem spfaLoop_isSome :
    ∀ (k : ℕ) (g : ArbitrageGraph), TermHyp g = true → mu g < k →
      (spfaLoop k g).isSome = true := by
  intro k
  induction k with
  | zero =>
      intro g ht hk
      exact absurd hk (Nat.not_lt_zero _)
  | succ n ih =>
      intro g ht hk
      simp only [spfaLoop]
      cases hd : g.dirty_vertices with
      | nil => simp [hd]
      | cons u rest =>
          simp only [hd]
          have hedges : ((g.adjacency_list.getD u []).all fun e =>
              decide (e.destination_id < g.update_counts.length)) = true := by
            rw [List.getD_eq_getElem?_getD]
            cases hrow : g.adjacency_list[u]? with
            | none => rfl
            | some row =>
                rw [TermHyp, List.all_eq_true] at ht
                exact ht row (List.mem_iff_getElem?.mpr ⟨u, hrow⟩)
          cases hr : relaxLoop u (g.adjacency_list.getD u [])
              { g with dirty_vertices := rest } with
          | inr d => simp [hr]
          | inl g3 =>
              simp only [hr]
              obtain ⟨h1, h2, h3, h4⟩ :=
                relaxLoop_inl u (g.adjacency_list.getD u [])
                  { g with dirty_vertices := rest } g3 hedges hr
              apply ih
              · rw [TermHyp] at ht ⊢
                rw [h1, h3]
                exact ht
              · have hmu2 : mu ({ g with dirty_vertices := rest } :
                    ArbitrageGraph) + 1 = mu g := by
                  simp only [mu, Pm, hd, List.length_cons]
                  omega
                omega

/-- C2.  Amended: under the structural invariants the query always
terminates — the dirty queue drains (or detection fires) within
`fuelBound` iterations of the outer loop.  The original claim's second
half, that it then returns "no cycle" whenever no negative cycle is
reachable, is false: see the counterexample theorem. -/
theorem find_arbitrage_cycle_terminates (g : ArbitrageGraph)
    (ht : TermHyp g = true)
    (hc : g.update_counts.length = g.num_vertices) :
    ∃ r, spfaLoop (fuelBound g) g = some r ∧ find_arbitrage_cycle g = r := by
  have hPm : Pm g ≤ g.num_vertices * g.num_vertices := by
    have h1 : (g.update_counts.map fun c => g.num_vertices - 1 - c).sum ≤
        (g.update_counts.map fun c => g.num_vertices - 1 - c).length •
          (g.num_vertices - 1) := by
      apply List.sum_le_card_nsmul
      intro x hx
      obtain ⟨c, hcmem, hcx⟩ := List.mem_map.mp hx
      omega
    rw [List.length_map, hc, smul_eq_mul] at h1
    exact le_trans h1 (Nat.mul_le_mul_left _ (Nat.sub_le _ _))
  have hmu : mu g < fuelBound g := by
    simp only [mu, fuelBound]
    omega
  have hs := spfaLoop_isSome (fuelBound g) g ht hmu
  obtain ⟨r, hr⟩ := Option.isSome_iff_exists.mp hs
  refine ⟨r, hr, ?_⟩
  unfold find_arbitrage_cycle
  rw [hr]
  rfl

/-- C2 witness: the final S1 state satisfies the structural hypothesis
and its query completes within the fuel bound. -/
theorem find_arbitrage_cycle_terminates_witness :
    (TermHyp (st2 [[⟨1, -3⟩], [⟨0, 3⟩]] [(2 ^ 32, 0), (1, 0)]
        [some 0, some (-1)] [-1, 0] [0, 1] [0, 1]) = true ∧
     (st2 [[⟨1, -3⟩], [⟨0, 3⟩]] [(2 ^ 32, 0), (1, 0)]
        [some 0, some (-1)] [-1, 0] [0, 1] [0, 1]).update_counts.length =
       (st2 [[⟨1, -3⟩], [⟨0, 3⟩]] [(2 ^ 32, 0), (1, 0)]
        [some 0, some (-1)] [-1, 0] [0, 1] [0, 1]).num_vertices) ∧
    ∃ r, spfaLoop
        (fuelBound (st2 [[⟨1, -3⟩], [⟨0, 3⟩]] [(2 ^ 32, 0), (1, 0)]
          [some 0, some (-1)] [-1, 0] [0, 1] [0, 1]))
        (st2 [[⟨1, -3⟩], [⟨0, 3⟩]] [(2 ^ 32, 0), (1, 0)]
          [some 0, some (-1)] [-1, 0] [0, 1] [0, 1]) = some r ∧
      find_arbitrage_cycle
        (st2 [[⟨1, -3⟩], [⟨0, 3⟩]] [(2 ^ 32, 0), (1, 0)]
          [some 0, some (-1)] [-1, 0] [0, 1] [0, 1]) = r :=
  ⟨⟨by decide, rfl⟩,
   find_arbitrage_cycle_terminates _ (by decide) rfl⟩

end ArbEngine
